import Mathlib

/-!
Verification of the cozy-keys piano core: note-event model, MIDI codec,
input arbitration, animation loop and synchronized playback engine.

JavaScript numbers are modelled as exact rationals (`ℚ`); the 32-bit
integer semantics of JavaScript bitwise operators (`&`, `|`, `<<`, `>>`,
`>>>`) is modelled explicitly via wrap-around on `ℤ`.  Functions that can
throw (`DataView` reads) return `Except`; loops of the source that can
run forever carry an explicit fuel parameter, where fuel exhaustion
represents non-termination of the original loop, never an exception.
-/

set_option maxHeartbeats 1000000
set_option maxRecDepth 100000

/-! ## Definitions: JavaScript 32-bit integer operations -/

/-- JavaScript `ToUint32`: the low 32 bits of an integer, as a natural number. -/
def toUint32 (a : ℤ) : ℕ := (a % (2 ^ 32 : ℤ)).toNat

/-- JavaScript `ToInt32`: the low 32 bits of an integer, interpreted signed. -/
def toInt32 (a : ℤ) : ℤ := (a + 2 ^ 31) % 2 ^ 32 - 2 ^ 31

/-- JavaScript `a & b` on integer-valued numbers. -/
def jsAnd (a b : ℤ) : ℤ := toInt32 ((toUint32 a &&& toUint32 b : ℕ) : ℤ)

/-- JavaScript `a | b` on integer-valued numbers. -/
def jsOr (a b : ℤ) : ℤ := toInt32 ((toUint32 a ||| toUint32 b : ℕ) : ℤ)

/-- JavaScript `a << k` on integer-valued numbers. -/
def jsShl (a : ℤ) (k : ℕ) : ℤ := toInt32 (a * 2 ^ k)

/-- JavaScript `a >> k` (sign-propagating shift) on integer-valued numbers. -/
def jsShr (a : ℤ) (k : ℕ) : ℤ := (toInt32 a).fdiv (2 ^ k)

/-- JavaScript `a >>> k` (zero-fill shift); the result is a `Uint32` value. -/
def jsShrU (a : ℤ) (k : ℕ) : ℤ := ((toUint32 a / 2 ^ k : ℕ) : ℤ)

/-! ## Definitions: note-event model (`useRecording.ts`) -/

/-- The `type` field of a `RecordingEvent`: the string union `'on' | 'off'`. -/
inductive EvType where
  | on : EvType
  | off : EvType
deriving DecidableEq, Repr

/-- `RecordingEvent` from `useRecording.ts`: a timed note on/off event.
`time` (milliseconds) and the normalized `velocity` are JavaScript numbers,
modelled as `ℚ`; `note` is carried as `ℤ` (under the spec's well-formedness
hypotheses it is an integer in 0..127). -/
structure RecordingEvent where
  type : EvType
  note : ℤ
  velocity : ℚ
  time : ℚ
deriving DecidableEq, Repr

/-! ## Definitions: time base (`midiTiming.ts`) -/

def TICKS_PER_QUARTER : ℚ := 480

def MS_PER_QUARTER : ℚ := 1000

def MICROSECONDS_PER_QUARTER : ℚ := MS_PER_QUARTER * 1000

def msPerTickFromTempo (microsecondsPerQuarter : ℚ) : ℚ :=
  (microsecondsPerQuarter / 1000) / TICKS_PER_QUARTER

/-- `msToTicks` from `midiTiming.ts`: `Math.max(0, Math.round(ms / msPerTick))`. -/
def msToTicks (ms : ℚ) (microsecondsPerQuarter : ℚ := MICROSECONDS_PER_QUARTER) : ℤ :=
  max 0 (round (ms / msPerTickFromTempo microsecondsPerQuarter))

/-- `ticksToMs` from `midiTiming.ts`: `ticks * msPerTick`. -/
def ticksToMs (ticks : ℚ) (microsecondsPerQuarter : ℚ := MICROSECONDS_PER_QUARTER) : ℚ :=
  ticks * msPerTickFromTempo microsecondsPerQuarter

/-! ## Definitions: JavaScript `Set` of note numbers

A JavaScript `Set` preserves insertion order, so it is modelled as a
duplicate-free list: `add` appends when absent, `delete` filters. -/

def jsSetAdd {α : Type} [DecidableEq α] (s : List α) (n : α) : List α :=
  if n ∈ s then s else s ++ [n]

def jsSetDelete {α : Type} [DecidableEq α] (s : List α) (n : α) : List α :=
  s.filter (fun m => m ≠ n)

/-! ## Definitions: input arbitration (`Piano.tsx`) -/

/-- Observable side effects of the `Piano.tsx` handlers: animation-target
updates, sound-engine triggers/releases, and parent callbacks. -/
inductive PianoCall where
  | animateKey (note : ℤ) (isPressed : Bool)
  | playNote (note : ℤ) (velocity : ℚ)
  | stopNote (note : ℤ)
  | onNoteOn (note : ℤ) (velocity : ℚ)
  | onNoteOff (note : ℤ)
deriving DecidableEq, Repr

/-- `handleMIDIMessage` from `Piano.tsx`: given the raw byte array of a
hardware MIDI message and the current `activeNotesRef` set, returns the
updated active-note set and the emitted calls, in program order. -/
def handleMIDIMessage (data : List ℕ) (activeNotes : List ℤ) : List ℤ × List PianoCall :=
  if data.length < 3 then (activeNotes, [])
  else
    let command := data.getD 0 0
    let note : ℤ := data.getD 1 0
    let velocity := data.getD 2 0
    if command = 144 ∧ 0 < velocity then
      (jsSetAdd activeNotes note,
        [.animateKey note true, .playNote note (velocity : ℚ), .onNoteOn note (velocity : ℚ)])
    else if command = 128 ∨ (command = 144 ∧ velocity = 0) then
      (jsSetDelete activeNotes note,
        [.animateKey note false, .stopNote note, .onNoteOff note])
    else (activeNotes, [])

/-- Classification of a raw MIDI message into an intent. -/
inductive MidiIntent where
  | noteOn (note : ℤ) (velocity : ℕ)
  | noteOff (note : ℤ)
  | ignored
deriving DecidableEq, Repr

/-- Modelled from the spec's words for C5 (the claim as stated): status high
nibble 0x9 with velocity > 0 is note-on, high nibble 0x8 (or 0x9 with
velocity 0) is note-off, channel bits ignored; short messages ignored. -/
def classifyMidiNibble (data : List ℕ) : MidiIntent :=
  if data.length < 3 then .ignored
  else
    let status := data.getD 0 0
    let note : ℤ := data.getD 1 0
    let velocity := data.getD 2 0
    if status / 16 = 9 ∧ 0 < velocity then .noteOn note velocity
    else if status / 16 = 8 ∨ (status / 16 = 9 ∧ velocity = 0) then .noteOff note
    else .ignored

/-- Modelled from the amended words for C5: only the exact status bytes
0x90 (144) and 0x80 (128), i.e. channel 0, are recognized. -/
def classifyMidiChannel0 (data : List ℕ) : MidiIntent :=
  if data.length < 3 then .ignored
  else
    let status := data.getD 0 0
    let note : ℤ := data.getD 1 0
    let velocity := data.getD 2 0
    if status = 144 ∧ 0 < velocity then .noteOn note velocity
    else if status = 128 ∨ (status = 144 ∧ velocity = 0) then .noteOff note
    else .ignored

/-- Effect of a classified intent on the active-note set, as the note-on /
note-off arms of `handleMIDIMessage` perform it. -/
def applyMidiIntent (activeNotes : List ℤ) : MidiIntent → List ℤ × List PianoCall
  | .noteOn note velocity =>
      (jsSetAdd activeNotes note,
        [.animateKey note true, .playNote note (velocity : ℚ), .onNoteOn note (velocity : ℚ)])
  | .noteOff note =>
      (jsSetDelete activeNotes note,
        [.animateKey note false, .stopNote note, .onNoteOff note])
  | .ignored => (activeNotes, [])

/-- Pointer-path state of `Piano.tsx`: `pointerDownRef`, `pointerNoteRef`
and the shared `activeNotesRef`. -/
structure PointerState where
  pointerDown : Bool
  pointerNote : Option ℤ
  active : List ℤ
deriving DecidableEq, Repr

/-- `handlePointerDown` from `Piano.tsx`, with the coordinate hit-test
(`getNoteFromCoords`) already resolved to `note`. -/
def handlePointerDown (note : Option ℤ) (isSoundOn : Bool) (st : PointerState) :
    PointerState × List PianoCall :=
  let st1 := { st with pointerDown := true }
  match note with
  | none => (st1, [])
  | some n =>
      let st2 := { st1 with pointerNote := some n }
      if n ∈ st2.active then (st2, [])
      else
        ({ st2 with active := jsSetAdd st2.active n },
          [PianoCall.animateKey n true] ++
            (if isSoundOn then [PianoCall.playNote n 100, PianoCall.onNoteOn n 100] else []))

/-! ## Definitions: synchronized playback scaling (`Piano.tsx`,
`startSynchronizedPlayback`) -/

/-- `rawEvents[rawEvents.length - 1]?.time ?? 0`. -/
def lastEventTimeOf (rawEvents : List RecordingEvent) : ℚ :=
  ((rawEvents.getLast?).map RecordingEvent.time).getD 0

/-- JavaScript double-negation truthiness of `audioDurationMs : number | undefined`. -/
def jsTruthyOpt : Option ℚ → Bool
  | none => false
  | some q => q ≠ 0

/-- The `needsScaling` condition of `startSynchronizedPlayback`. -/
def needsScaling (rawEvents : List RecordingEvent) (hasTempoMeta : Bool)
    (audioDurationMs : Option ℚ) : Bool :=
  !hasTempoMeta && jsTruthyOpt audioDurationMs &&
    decide (0 < lastEventTimeOf rawEvents) &&
    decide (1 / 20 < |audioDurationMs.getD 0 / lastEventTimeOf rawEvents - 1|)

/-- The `scaledEvents` computation of `startSynchronizedPlayback`. -/
def scaledEvents (rawEvents : List RecordingEvent) (hasTempoMeta : Bool)
    (audioDurationMs : Option ℚ) : List RecordingEvent :=
  if needsScaling rawEvents hasTempoMeta audioDurationMs then
    rawEvents.map (fun e =>
      { e with time := e.time * (audioDurationMs.getD 0 / lastEventTimeOf rawEvents) })
  else rawEvents

/-- Modelled from the spec's words for C6 (the claim as stated): rescale iff
no tempo meta, an audio duration is known, and the ratio deviates from 1 by
more than 5% — with no condition on the last event time. -/
def driftRescaleSpecC6 (rawEvents : List RecordingEvent) (hasTempoMeta : Bool)
    (audioDurationMs : Option ℚ) : List RecordingEvent :=
  if !hasTempoMeta && audioDurationMs.isSome &&
      decide (1 / 20 < |audioDurationMs.getD 0 / lastEventTimeOf rawEvents - 1|) then
    rawEvents.map (fun e =>
      { e with time := e.time * (audioDurationMs.getD 0 / lastEventTimeOf rawEvents) })
  else rawEvents

/-- Modelled from the amended words for C6: as the claim, plus the condition
that the last event time is positive. -/
def driftRescaleSpecAmended (rawEvents : List RecordingEvent) (hasTempoMeta : Bool)
    (audioDurationMs : Option ℚ) : List RecordingEvent :=
  if !hasTempoMeta && audioDurationMs.isSome &&
      decide (0 < lastEventTimeOf rawEvents) &&
      decide (1 / 20 < |audioDurationMs.getD 0 / lastEventTimeOf rawEvents - 1|) then
    rawEvents.map (fun e =>
      { e with time := e.time * (audioDurationMs.getD 0 / lastEventTimeOf rawEvents) })
  else rawEvents

/-- The event-list part of `startSynchronizedPlayback`: early return (`none`)
when the fetched event list is empty, otherwise the drift-scaled events. -/
def startSynchronizedPlaybackEvents (rawEvents : List RecordingEvent) (hasTempoMeta : Bool)
    (audioDurationMs : Option ℚ) : Option (List RecordingEvent) :=
  if rawEvents.length = 0 then none
  else some (scaledEvents rawEvents hasTempoMeta audioDurationMs)

/-- The `readDuration` helper of `ensureAudioDurationMs`: a duration that is
falsy, non-finite or non-positive is treated as unknown. -/
def readDuration (duration : Option ℚ) : Option ℚ :=
  match duration with
  | none => none
  | some d => if d ≤ 0 then none else some (d * 1000)

/-! ## Definitions: synchronized playback frame loop (`run` in `Piano.tsx`) -/

/-- `playbackEventIndexRef`, `playbackNotesRef` (ghost notes, a JS `Set`)
and `playbackLastTimeRef`. -/
structure PlaybackVisState where
  eventIndex : ℕ
  ghosts : List ℤ
  lastTime : ℚ
deriving DecidableEq, Repr

/-- The leading `while` loop of `run`: fire every pending event whose
trigger time has been reached, maintaining the ghost-note set. -/
def firePendingEvents (pendingEvents : List RecordingEvent) (currentTimeMs : ℚ)
    (index : ℕ) (ghosts : List ℤ) : ℕ × List ℤ × List PianoCall :=
  if h : index < pendingEvents.length then
    let event := pendingEvents.get ⟨index, h⟩
    let triggerTime := max 0 (event.time - 75)
    if triggerTime ≤ currentTimeMs + 25 then
      match event.type with
      | .on =>
          let r := firePendingEvents pendingEvents currentTimeMs (index + 1)
            (jsSetAdd ghosts event.note)
          (r.1, r.2.1, PianoCall.animateKey event.note true :: r.2.2)
      | .off =>
          let r := firePendingEvents pendingEvents currentTimeMs (index + 1)
            (jsSetDelete ghosts event.note)
          (r.1, r.2.1, PianoCall.animateKey event.note false :: r.2.2)
    else (index, ghosts, [])
  else (index, ghosts, [])
termination_by pendingEvents.length - index

/-- One invocation of `run` (one animation frame) while the audio is playing
and the session is current: scrub detection and reset, then event firing.
`activeNotes` is the live-input `activeNotesRef` set. -/
def runFrame (pendingEvents : List RecordingEvent) (activeNotes : List ℤ)
    (currentTimeMs : ℚ) (st : PlaybackVisState) : PlaybackVisState × List PianoCall :=
  let reset :=
    if currentTimeMs + 25 < st.lastTime then
      ((0 : ℕ), ([] : List ℤ),
        (st.ghosts.filter (fun n => !(activeNotes.contains n))).map
          (fun n => PianoCall.animateKey n false))
    else (st.eventIndex, st.ghosts, ([] : List PianoCall))
  let fired := firePendingEvents pendingEvents currentTimeMs reset.1 reset.2.1
  (⟨fired.1, fired.2.1, currentTimeMs⟩, reset.2.2 ++ fired.2.2)

/-! ## Definitions: key animation loop (`animateKey` in `Piano.tsx`) -/

/-- Per-key animation state: `keyAnimationsRef` entry. -/
structure KeyAnim where
  progress : ℚ
  target : ℚ
deriving DecidableEq, Repr

/-- One `forEach` body of the `animate` frame for a single key: advance by
15% of the gap while the gap exceeds 0.01, else snap to target.  The Bool
reports whether this key set `needsUpdate`. -/
def animTick (a : KeyAnim) : KeyAnim × Bool :=
  let diff := a.target - a.progress
  if 1 / 100 < |diff| then ({ a with progress := a.progress + diff * (3 / 20) }, true)
  else ({ a with progress := a.target }, false)

/-- Iterated animation ticks for one key. -/
def iterTick : ℕ → KeyAnim → KeyAnim
  | 0, a => a
  | n + 1, a => iterTick n (animTick a).1

/-- One full `animate` frame over the key-animation map; the Bool is
`needsUpdate` (whether a further frame is requested). -/
def animFrame (anims : List (ℕ × KeyAnim)) : List (ℕ × KeyAnim) × Bool :=
  (anims.map (fun p => (p.1, (animTick p.2).1)), anims.any (fun p => (animTick p.2).2))

/-- JavaScript `Map.set`: overwrite in place, else append. -/
def mapSet (m : List (ℕ × KeyAnim)) (k : ℕ) (v : KeyAnim) : List (ℕ × KeyAnim) :=
  if m.any (fun p => p.1 = k) then m.map (fun p => if p.1 = k then (k, v) else p)
  else m ++ [(k, v)]

/-- JavaScript `Map.get`. -/
def mapGet (m : List (ℕ × KeyAnim)) (k : ℕ) : Option KeyAnim :=
  (m.find? (fun p => p.1 = k)).map (fun p => p.2)

/-- Animation driver state: the key map plus whether a frame callback is
scheduled (`animationIdRef.current !== null`). -/
structure AnimDriverState where
  anims : List (ℕ × KeyAnim)
  animationId : Bool
deriving DecidableEq, Repr

/-- `animateKey` from `Piano.tsx`: ensure the key exists, set its target,
and if no driver is running, run one `animate` frame immediately; that frame
schedules a follow-up iff some key still needs updating. -/
def animateKey (note : ℕ) (isPressed : Bool) (st : AnimDriverState) : AnimDriverState :=
  let m1 := if st.anims.any (fun p => p.1 = note) then st.anims
    else st.anims ++ [(note, ⟨0, 0⟩)]
  let a := (mapGet m1 note).getD ⟨0, 0⟩
  let m2 := mapSet m1 note { a with target := if isPressed then 1 else 0 }
  if st.animationId then { anims := m2, animationId := true }
  else
    let fr := animFrame m2
    { anims := fr.1, animationId := fr.2 }

/-! ## Definitions: MIDI decoder (`decodeMidiToEvents` in `App.tsx`) -/

/-- Decoder failure modes: `range` models a thrown `RangeError` from a
`DataView` read outside the buffer; `spin` models fuel exhaustion, i.e. the
corresponding source loop still running (the source has no such notion — a
`spin` result means the original code never returns). -/
inductive DecodeErr where
  | range : DecodeErr
  | spin : DecodeErr
deriving DecidableEq, Repr

deriving instance DecidableEq for Except

/-- `DataView.getUint8`: throws on a negative or out-of-range offset. -/
def getU8 (buf : List ℕ) (i : ℤ) : Except DecodeErr ℕ :=
  if 0 ≤ i ∧ i < (buf.length : ℤ) then .ok (buf.getD i.toNat 0) else .error .range

/-- `DataView.getUint32` (big-endian): throws unless all four bytes are in
range. -/
def getU32 (buf : List ℕ) (i : ℤ) : Except DecodeErr ℕ :=
  if 0 ≤ i ∧ i + 4 ≤ (buf.length : ℤ) then
    .ok (buf.getD i.toNat 0 * 2 ^ 24 + buf.getD (i.toNat + 1) 0 * 2 ^ 16 +
      buf.getD (i.toNat + 2) 0 * 2 ^ 8 + buf.getD (i.toNat + 3) 0)
  else .error .range

/-- Structural worker for `readVarLen`.  The `gas` argument only bounds the
recursion depth; each iteration moves the offset one step towards the end of
the buffer (where the read throws), so `buf.length + 1` units are enough for
every run and the `gas = 0` case is unreachable from `readVarLen`. -/
def readVarLenAux (buf : List ℕ) : ℕ → ℤ → ℤ → Except DecodeErr (ℤ × ℤ)
  | 0, _, _ => .error .range
  | gas + 1, i, acc =>
      if 0 ≤ i ∧ i < (buf.length : ℤ) then
        let b := buf.getD i.toNat 0
        let acc1 := jsOr (jsShl acc 7) (jsAnd (b : ℤ) 127)
        if jsAnd (b : ℤ) 128 ≠ 0 then readVarLenAux buf gas (i + 1) acc1
        else .ok (acc1, i + 1)
      else .error .range

/-- The decoder's variable-length-quantity loop:
`do { byte = getUint8(offset++); acc = (acc << 7) | (byte & 0x7F); } while (byte & 0x80)`,
returning the accumulated value and the offset after the last byte read. -/
def readVarLen (buf : List ℕ) (i : ℤ) (acc : ℤ) : Except DecodeErr (ℤ × ℤ) :=
  readVarLenAux buf (buf.length + 1) i acc

/-- The mutable state of the decoder's track-walking `while` loop. -/
structure TrackState where
  offset : ℤ
  absoluteTime : ℤ
  microsecondsPerQuarter : ℤ
  hasTempoMeta : Bool
  events : List RecordingEvent
deriving DecidableEq, Repr

/-- One iteration of the decoder's track loop: read a delta time, an event
type byte, and dispatch on meta / note-on / note-off / other. -/
def trackEventStep (buf : List ℕ) (st : TrackState) : Except DecodeErr TrackState := do
  let d ← readVarLen buf st.offset 0
  let deltaTime := d.1
  let o1 := d.2
  let absTime := st.absoluteTime + deltaTime
  let eventType ← getU8 buf o1
  let o2 := o1 + 1
  if eventType = 255 then do
    let metaType ← getU8 buf o2
    let m ← readVarLen buf (o2 + 1) 0
    let metaLength := m.1
    let metaStart := m.2
    if metaType = 81 ∧ metaLength = 3 then do
      let t0 ← getU8 buf metaStart
      let t1 ← getU8 buf (metaStart + 1)
      let t2 ← getU8 buf (metaStart + 2)
      pure { offset := metaStart + metaLength, absoluteTime := absTime,
             microsecondsPerQuarter :=
               jsOr (jsOr (jsShl (t0 : ℤ) 16) (jsShl (t1 : ℤ) 8)) (t2 : ℤ),
             hasTempoMeta := true, events := st.events }
    else
      pure { offset := metaStart + metaLength, absoluteTime := absTime,
             microsecondsPerQuarter := st.microsecondsPerQuarter,
             hasTempoMeta := st.hasTempoMeta, events := st.events }
  else if jsAnd (eventType : ℤ) 240 = 144 then do
    let note ← getU8 buf o2
    let velocity ← getU8 buf (o2 + 1)
    let ev : RecordingEvent :=
      if 0 < velocity then
        ⟨.on, (note : ℤ), (velocity : ℚ) / 127,
          ticksToMs (st.absoluteTime + deltaTime : ℤ) (st.microsecondsPerQuarter : ℤ)⟩
      else
        ⟨.off, (note : ℤ), 0,
          ticksToMs (st.absoluteTime + deltaTime : ℤ) (st.microsecondsPerQuarter : ℤ)⟩
    pure { offset := o2 + 2, absoluteTime := absTime,
           microsecondsPerQuarter := st.microsecondsPerQuarter,
           hasTempoMeta := st.hasTempoMeta, events := st.events ++ [ev] }
  else if jsAnd (eventType : ℤ) 240 = 128 then do
    let note ← getU8 buf o2
    let _ ← getU8 buf (o2 + 1)
    pure { offset := o2 + 2, absoluteTime := absTime,
           microsecondsPerQuarter := st.microsecondsPerQuarter,
           hasTempoMeta := st.hasTempoMeta,
           events := st.events ++ [⟨.off, (note : ℤ), 0,
             ticksToMs (st.absoluteTime + deltaTime : ℤ) (st.microsecondsPerQuarter : ℤ)⟩] }
  else
    pure { offset := o2 + 1, absoluteTime := absTime,
           microsecondsPerQuarter := st.microsecondsPerQuarter,
           hasTempoMeta := st.hasTempoMeta, events := st.events }

/-- The decoder's `while (offset < trackEnd)` loop.  `fuel` bounds the number
of iterations; running out models non-termination, which is reachable in the
source because a crafted negative meta length moves `offset` backwards. -/
def trackLoop (buf : List ℕ) (trackEnd : ℤ) : ℕ → TrackState → Except DecodeErr TrackState
  | 0, _ => .error .spin
  | fuel + 1, st =>
      if st.offset < trackEnd then do
        let st1 ← trackEventStep buf st
        trackLoop buf trackEnd fuel st1
      else .ok st

/-- Structural worker for `scanForTrack`; as with `readVarLenAux`, `gas`
only bounds the depth (the offset strictly increases towards the loop's exit
condition), and the `gas = 0` value coincides with the loop-exit value. -/
def scanForTrackAux (buf : List ℕ) (fuel : ℕ) :
    ℕ → ℕ → Except DecodeErr (List RecordingEvent × Bool × ℤ)
  | 0, _ => pure ([], false, 1000000)
  | gas + 1, offset =>
      if offset < buf.length then do
        let w ← getU32 buf (offset : ℤ)
        if w = 0x4D54726B then do
          let trackLength ← getU32 buf ((offset : ℤ) + 4)
          let st ← trackLoop buf ((offset : ℤ) + 8 + (trackLength : ℤ)) fuel
            ⟨(offset : ℤ) + 8, 0, 1000000, false, []⟩
          pure (st.events, st.hasTempoMeta, st.microsecondsPerQuarter)
        else scanForTrackAux buf fuel gas (offset + 1)
      else pure ([], false, 1000000)

/-- The decoder's outer scan: find the first `MTrk` chunk by signature,
process it, and stop; with no track found return the empty result. -/
def scanForTrack (buf : List ℕ) (fuel : ℕ) (offset : ℕ) :
    Except DecodeErr (List RecordingEvent × Bool × ℤ) :=
  scanForTrackAux buf fuel (buf.length + 1) offset

/-- Stable insertion into a time-sorted list: the position of `e` is before
the first element with a strictly later... equal-time elements that were
already in the list stay in front only when their time is strictly smaller,
matching the stability of `Array.prototype.sort` with the comparator
`(a, b) => a.time - b.time`. -/
def insertByTime (e : RecordingEvent) : List RecordingEvent → List RecordingEvent
  | [] => [e]
  | f :: rest => if f.time < e.time then f :: insertByTime e rest else e :: f :: rest

/-- Stable sort by ascending `time` (`events.sort((a, b) => a.time - b.time)`). -/
def sortByTime : List RecordingEvent → List RecordingEvent
  | [] => []
  | e :: rest => insertByTime e (sortByTime rest)

/-- The decoder's result record (`RecordingEventsResult` in the source). -/
structure RecordingEventsResult where
  events : List RecordingEvent
  hasTempoMeta : Bool
  microsecondsPerQuarter : ℤ
deriving DecidableEq, Repr

/-- `decodeMidiToEvents` from `App.tsx`: check the `MThd` signature (a read
that itself throws on buffers shorter than 4 bytes), scan for the first
track, and return the time-sorted events with the tempo information. -/
def decodeMidiToEvents (buf : List ℕ) (fuel : ℕ) : Except DecodeErr RecordingEventsResult := do
  let w ← getU32 buf 0
  let r ← scanForTrack buf fuel (if w = 0x4D546864 then 14 else 0)
  pure ⟨sortByTime r.1, r.2.1, r.2.2⟩

/-- The decode part of `getRecordingEvents` from `App.tsx`: the surrounding
`try`/`catch` turns any thrown error into the default empty result.  A `none`
result models the underlying decode loop never returning. -/
def getRecordingEvents (buf : List ℕ) (fuel : ℕ) : Option RecordingEventsResult :=
  match decodeMidiToEvents buf fuel with
  | .ok r => some r
  | .error .range => some ⟨[], false, 1000000⟩
  | .error .spin => none

/-- A crafted malformed buffer: an `MTrk` chunk whose single meta event
declares the 32-bit-wrapped variable-length quantity -8, exactly undoing the
8 bytes the iteration consumed, so the decoder's track loop revisits the same
offset forever. -/
def spinBuf : List ℕ := [77, 84, 114, 107, 0, 0, 0, 100, 0, 255, 0, 255, 255, 255, 255, 120]

/-- An `MTrk` chunk containing a 3-byte control-change event (0xB0 0x07 0x64)
followed by a note-on for note 60 and an end-of-track meta. -/
def ccBuf : List ℕ :=
  [77, 84, 114, 107, 0, 0, 0, 12, 0, 176, 7, 100, 0, 144, 60, 100, 0, 255, 47, 0]

/-- The same track without the control-change event. -/
def ccFreeBuf : List ℕ := [77, 84, 114, 107, 0, 0, 0, 8, 0, 144, 60, 100, 0, 255, 47, 0]

/-! ## Definitions: MIDI encoder (`encodeMidi` in `useRecording.ts`) -/

/-- First loop of `writeVarLen`:
`while ((val >>= 7)) { v <<= 8; v |= ((val & 0x7F) | 0x80); }`.
`none` models the loop not terminating (as the source does for negative
values, since `-1 >> 7 === -1`). -/
def writeVarLenLoop1 : ℕ → ℤ → ℤ → Option ℤ
  | 0, _, _ => none
  | f + 1, val, v =>
      let val1 := jsShr val 7
      if val1 ≠ 0 then
        writeVarLenLoop1 f val1 (jsOr (jsShl v 8) (jsOr (jsAnd val1 127) 128))
      else some v

/-- Second loop of `writeVarLen`:
`while (true) { buffer.push(v & 0xFF); if (v & 0x80) v >>= 8; else break; }`.
`none` models non-termination (reached when `v` has wrapped negative). -/
def writeVarLenLoop2 : ℕ → ℤ → List ℤ → Option (List ℤ)
  | 0, _, _ => none
  | f + 1, v, buffer =>
      let buffer1 := buffer ++ [jsAnd v 255]
      if jsAnd v 128 ≠ 0 then writeVarLenLoop2 f (jsShr v 8) buffer1 else some buffer1

/-- `writeVarLen` from `encodeMidi`.  Eight units of internal fuel cover
every terminating run (a 32-bit value has at most five 7-bit groups and at
most five output bytes), so `none` holds exactly when the original JavaScript
loops forever. -/
def writeVarLen (val : ℤ) : Option (List ℤ) := do
  let v ← writeVarLenLoop1 8 val (jsAnd val 127)
  writeVarLenLoop2 8 v []

/-- One event of the encoder's `for` body: the rounded tick delta from
`ev.time * 0.48 - lastTime`, its variable-length encoding, and the 3-byte
channel message; returns the pushed bytes and the updated `lastTime`. -/
def eventBytes (ev : RecordingEvent) (lastTime : ℤ) : Option (List ℤ × ℤ) := do
  let delta := round (ev.time * (48 / 100) - (lastTime : ℚ))
  let vl ← writeVarLen delta
  let msg : List ℤ :=
    if ev.type = .on then [144, ev.note, max 1 (round (ev.velocity * 127))]
    else [128, ev.note, 0]
  some (vl ++ msg, lastTime + delta)

/-- The encoder's event loop, threading `lastTime`. -/
def encodeTrackBody : List RecordingEvent → ℤ → Option (List ℤ)
  | [], _ => some []
  | ev :: rest, lastTime => do
      let r ← eventBytes ev lastTime
      let tail ← encodeTrackBody rest r.2
      some (r.1 ++ tail)

/-- `encodeMidi` from `useRecording.ts`: header chunk, `MTrk` chunk with the
back-patched 32-bit length, event bytes, end-of-track meta, all collected
into a `Uint8Array` (each number reduced mod 256). -/
def encodeMidi (events : List RecordingEvent) : Option (List ℕ) := do
  let body ← encodeTrackBody events 0
  let trackData := body ++ [0, 255, 47, 0]
  let trackLen : ℤ := trackData.length
  let track : List ℤ := [77, 84, 114, 107,
    jsAnd (jsShrU trackLen 24) 255, jsAnd (jsShrU trackLen 16) 255,
    jsAnd (jsShrU trackLen 8) 255, jsAnd trackLen 255] ++ trackData
  let header : List ℤ := [77, 84, 104, 100, 0, 0, 0, 6, 0, 0, 0, 1, 1, 224]
  some ((header ++ track).map (fun z => (z % 256).toNat))

/-- Proof scaffolding: the standard big-endian variable-length encoding of a
value below `2^28`, used to characterize `writeVarLen` on its good range. -/
def varBytes (d : ℕ) : List ℕ :=
  if d < 2 ^ 7 then [d]
  else if d < 2 ^ 14 then [d / 2 ^ 7 + 128, d % 128]
  else if d < 2 ^ 21 then [d / 2 ^ 14 + 128, d / 2 ^ 7 % 128 + 128, d % 128]
  else [d / 2 ^ 21 + 128, d / 2 ^ 14 % 128 + 128, d / 2 ^ 7 % 128 + 128, d % 128]

/-! ## Definitions: roundtrip proof scaffolding -/

/-- Proof scaffolding: the image of one recording event under the decoder,
given the encoder's fixed 480-ticks/1000-ms time base. -/
def decodedOf (ev : RecordingEvent) : RecordingEvent :=
  ⟨ev.type, ((ev.note.toNat : ℕ) : ℤ),
    if ev.type = .on then (((max 1 (round (ev.velocity * 127))).toNat : ℕ) : ℚ) / 127
    else 0,
    ticksToMs ((round (ev.time * (48 / 100)) : ℤ) : ℚ) ((1000000 : ℤ) : ℚ)⟩

/-- Proof scaffolding: the bytes the encoder emits for one event, starting
from accumulated tick count `A`. -/
def eventChunk (A : ℤ) (ev : RecordingEvent) : List ℕ :=
  varBytes ((round (ev.time * (48 / 100)) - A).toNat) ++
    (if ev.type = .on then [144, ev.note.toNat, (max 1 (round (ev.velocity * 127))).toNat]
     else [128, ev.note.toNat, 0])

/-- Proof scaffolding: the encoder's full track body bytes. -/
def trackChunks (A : ℤ) : List RecordingEvent → List ℕ
  | [] => []
  | ev :: rest => eventChunk A ev ++ trackChunks (round (ev.time * (48 / 100))) rest

/-- Well-formedness of an event list relative to a previous time stamp. -/
def wfEvents (prev : ℚ) (evs : List RecordingEvent) : Prop :=
  List.Chain (fun a b => a.time ≤ b.time) ⟨.on, 0, 0, prev⟩ evs ∧
  (∀ e ∈ evs, 0 ≤ e.time ∧ e.time ≤ 500000000) ∧
  (∀ e ∈ evs, 0 ≤ e.note ∧ e.note ≤ 127) ∧
  (∀ e ∈ evs, e.type = .on → 0 ≤ e.velocity ∧ e.velocity ≤ 1)

/-- Proof scaffolding: the byte stream `encodeMidi` produces for a
well-formed event list. -/
def encodedBytes (events : List RecordingEvent) : List ℕ :=
  [77, 84, 104, 100, 0, 0, 0, 6, 0, 0, 0, 1, 1, 224] ++
  [77, 84, 114, 107,
    ((trackChunks 0 events).length + 4) / 2 ^ 24 % 256,
    ((trackChunks 0 events).length + 4) / 2 ^ 16 % 256,
    ((trackChunks 0 events).length + 4) / 2 ^ 8 % 256,
    ((trackChunks 0 events).length + 4) % 256] ++
  trackChunks 0 events ++ [0, 255, 47, 0]

/-! ## Theorems: JavaScript integer helper lemmas -/

theorem toUint32_of_lt {a : ℤ} (h0 : 0 ≤ a) (h : a < 2 ^ 32) : toUint32 a = a.toNat := by
  unfold toUint32
  omega

theorem toInt32_of_lt {a : ℤ} (h0 : 0 ≤ a) (h : a < 2 ^ 31) : toInt32 a = a := by
  unfold toInt32
  omega

theorem toInt32_coe_of_lt {n : ℕ} (h : n < 2 ^ 31) : toInt32 (n : ℤ) = (n : ℤ) := by
  apply toInt32_of_lt (by positivity)
  exact_mod_cast h

theorem toUint32_coe (n : ℕ) (h : n < 2 ^ 32) : toUint32 (n : ℤ) = n := by
  rw [toUint32_of_lt (by positivity) (by exact_mod_cast h)]
  exact Int.toNat_natCast n

/-- JavaScript `&` with a small constant, reduced to `Nat.land`. -/
theorem jsAnd_small {a : ℤ} (m : ℕ) (h0 : 0 ≤ a) (ha : a < 2 ^ 32) (hm : m < 2 ^ 31) :
    jsAnd a (m : ℤ) = ((a.toNat &&& m : ℕ) : ℤ) := by
  unfold jsAnd
  rw [toUint32_of_lt h0 ha, toUint32_coe m (by omega)]
  have hle : a.toNat &&& m ≤ m := Nat.and_le_right
  exact toInt32_coe_of_lt (by omega)

theorem natAnd_127 (x : ℕ) : x &&& 127 = x % 128 := by
  have := Nat.and_pow_two_sub_one_eq_mod x 7
  norm_num at this
  exact this

theorem natAnd_255 (x : ℕ) : x &&& 255 = x % 256 := by
  have := Nat.and_pow_two_sub_one_eq_mod x 8
  norm_num at this
  exact this

theorem jsAnd_127 {a : ℤ} (h0 : 0 ≤ a) (ha : a < 2 ^ 32) : jsAnd a 127 = a % 128 := by
  have : ((127 : ℕ) : ℤ) = (127 : ℤ) := by norm_num
  rw [← this, jsAnd_small 127 h0 ha (by norm_num), natAnd_127]
  push_cast
  omega

theorem jsAnd_255 {a : ℤ} (h0 : 0 ≤ a) (ha : a < 2 ^ 32) : jsAnd a 255 = a % 256 := by
  have : ((255 : ℕ) : ℤ) = (255 : ℤ) := by norm_num
  rw [← this, jsAnd_small 255 h0 ha (by norm_num), natAnd_255]
  push_cast
  omega

theorem natAnd_128_byte : ∀ b : ℕ, b < 256 → b &&& 128 = if b < 128 then 0 else 128 := by
  decide

theorem jsAnd_128_byte {b : ℕ} (hb : b < 256) :
    jsAnd (b : ℤ) 128 = if b < 128 then 0 else 128 := by
  have h128 : ((128 : ℕ) : ℤ) = (128 : ℤ) := by norm_num
  rw [← h128, jsAnd_small 128 (by positivity) (by exact_mod_cast lt_trans hb (by norm_num))
    (by norm_num)]
  rw [Int.toNat_natCast, natAnd_128_byte b hb]
  split <;> norm_num

/-! ## Theorems: time base (claim C8) -/

theorem msPerTick_pos {μ : ℚ} (h : 0 < μ) : 0 < msPerTickFromTempo μ := by
  unfold msPerTickFromTempo TICKS_PER_QUARTER
  positivity

theorem round_le_round {x y : ℚ} (h : x ≤ y) : round x ≤ round y := by
  rw [round_eq, round_eq]
  exact Int.floor_mono (by linarith)

/-- C8: `ticksToMs` and `msToTicks` are mutual inverses up to rounding: the
round trip `msToTicks (ticksToMs t)` is exact on whole tick counts for any
positive tempo; both functions default their tempo argument to
`MICROSECONDS_PER_QUARTER` when it is omitted; `msToTicks` maps every
negative millisecond input to `0`; and in the other direction
`ticksToMs (msToTicks ms)` lands within half a tick of `ms`. -/
theorem msToTicks_ticksToMs_inverse :
    (∀ (t : ℕ) (μ : ℚ), 0 < μ → msToTicks (ticksToMs (t : ℚ) μ) μ = t) ∧
    (∀ ms : ℚ, msToTicks ms = msToTicks ms MICROSECONDS_PER_QUARTER ∧
      ticksToMs ms = ticksToMs ms MICROSECONDS_PER_QUARTER) ∧
    (∀ (ms μ : ℚ), ms < 0 → 0 < μ → msToTicks ms μ = 0) ∧
    (∀ (ms μ : ℚ), 0 < μ → 0 ≤ ms →
      |ticksToMs ((msToTicks ms μ : ℤ) : ℚ) μ - ms| ≤ msPerTickFromTempo μ / 2) := by
  refine ⟨?_, ?_, ?_, ?_⟩
  · intro t μ hμ
    have hmpt := msPerTick_pos hμ
    unfold msToTicks ticksToMs
    rw [mul_div_assoc, div_self (ne_of_gt hmpt), mul_one, round_natCast]
    omega
  · intro ms
    exact ⟨rfl, rfl⟩
  · intro ms μ hms hμ
    have hmpt := msPerTick_pos hμ
    unfold msToTicks
    have hdiv : ms / msPerTickFromTempo μ < 0 := div_neg_of_neg_of_pos hms hmpt
    have : round (ms / msPerTickFromTempo μ) ≤ 0 := by
      have h0 : round (0 : ℚ) = 0 := by simp
      calc round (ms / msPerTickFromTempo μ) ≤ round (0 : ℚ) :=
            round_le_round (le_of_lt hdiv)
        _ = 0 := h0
    omega
  · intro ms μ hμ hms
    have hmpt := msPerTick_pos hμ
    set q := ms / msPerTickFromTempo μ with hq
    have hq0 : 0 ≤ q := div_nonneg hms (le_of_lt hmpt)
    have hr0 : 0 ≤ round q := by
      have := round_le_round hq0
      simpa using this
    unfold msToTicks ticksToMs
    rw [← hq, max_eq_right hr0]
    have hms' : ms = q * msPerTickFromTempo μ := by
      rw [hq, div_mul_cancel₀]
      exact ne_of_gt hmpt
    rw [hms']
    rw [← sub_mul, abs_mul, abs_of_pos hmpt]
    have habs : |(round q : ℚ) - q| ≤ 1 / 2 := by
      have := abs_sub_round q
      rwa [abs_sub_comm] at this
    calc |(round q : ℚ) - q| * msPerTickFromTempo μ
        ≤ 1 / 2 * msPerTickFromTempo μ := by
          apply mul_le_mul_of_nonneg_right habs (le_of_lt hmpt)
      _ = msPerTickFromTempo μ / 2 := by ring

/-- Witness for C8 at concrete inputs. -/
theorem msToTicks_ticksToMs_inverse_witness :
    msToTicks (ticksToMs ((3 : ℕ) : ℚ) MICROSECONDS_PER_QUARTER) MICROSECONDS_PER_QUARTER = 3 ∧
    msToTicks (-5) MICROSECONDS_PER_QUARTER = 0 := by
  constructor
  · exact msToTicks_ticksToMs_inverse.1 3 MICROSECONDS_PER_QUARTER
      (by norm_num [MICROSECONDS_PER_QUARTER, MS_PER_QUARTER])
  · exact msToTicks_ticksToMs_inverse.2.2.1 (-5) MICROSECONDS_PER_QUARTER (by norm_num)
      (by norm_num [MICROSECONDS_PER_QUARTER, MS_PER_QUARTER])

/-! ## Theorems: input arbitration (claims C4, C5) -/

theorem count_jsSetAdd_of_nodup {α : Type} [DecidableEq α] (active : List α) (n : α)
    (h : active.Nodup) : (jsSetAdd active n).Nodup ∧ (jsSetAdd active n).count n = 1 := by
  unfold jsSetAdd
  by_cases hm : n ∈ active
  · simp only [hm, if_true]
    exact ⟨h, List.count_eq_one_of_mem h hm⟩
  · simp only [hm, if_false]
    constructor
    · simp [List.nodup_append, h, hm]
    · rw [List.count_append]
      simp [List.count_eq_zero_of_not_mem hm]

/-- C4 (amended): the pointer-down path is idempotent — a pointer note-on
for a note already in the active set changes no audio or animation state and
leaves the set unchanged; a JavaScript `Set` keeps each active note exactly
once; but the hardware-MIDI path is not idempotent: a note-on message always
emits one `playNote` call even when the note is already active, and a
note-off message for an inactive note still emits `stopNote` and a release
animation. -/
theorem noteOn_idempotence_by_path :
    (∀ (n : ℤ) (snd : Bool) (st : PointerState), n ∈ st.active →
      handlePointerDown (some n) snd st =
        ({ st with pointerDown := true, pointerNote := some n }, [])) ∧
    (∀ (active : List ℤ) (n : ℤ), active.Nodup →
      (jsSetAdd active n).Nodup ∧ (jsSetAdd active n).count n = 1) ∧
    (∀ (n v : ℕ) (active : List ℤ), 0 < v →
      ((handleMIDIMessage [144, n, v] active).2.count
        (PianoCall.playNote (n : ℤ) ((v : ℕ) : ℚ)) = 1)) ∧
    (∀ (n v : ℕ) (active : List ℤ), (n : ℤ) ∉ active →
      (handleMIDIMessage [128, n, v] active).2 =
        [.animateKey (n : ℤ) false, .stopNote (n : ℤ), .onNoteOff (n : ℤ)]) := by
  refine ⟨?_, ?_, ?_, ?_⟩
  · intro n snd st hmem
    unfold handlePointerDown
    simp [hmem]
  · intro active n h
    exact count_jsSetAdd_of_nodup active n h
  · intro n v active hv
    unfold handleMIDIMessage
    simp [hv]
  · intro n v active _
    unfold handleMIDIMessage
    simp

/-- Witness for C4 at concrete inputs. -/
theorem noteOn_idempotence_by_path_witness :
    (60 : ℤ) ∈ ([60] : List ℤ) ∧
    handlePointerDown (some 60) true ⟨false, none, [60]⟩ =
      ({ pointerDown := true, pointerNote := some 60, active := [60] }, []) ∧
    (handleMIDIMessage [144, 60, 100] [60]).2.count
      (PianoCall.playNote ((60 : ℕ) : ℤ) ((100 : ℕ) : ℚ)) = 1 := by
  refine ⟨by decide, ?_, ?_⟩
  · exact noteOn_idempotence_by_path.1 60 true ⟨false, none, [60]⟩ (by decide)
  · exact noteOn_idempotence_by_path.2.2.1 60 100 [60] (by decide)

/-- C4 counterexample: two consecutive hardware-MIDI note-on messages for
note 60 without an intervening off produce two `playNote` calls, not one. -/
theorem midi_double_noteOn_counterexample :
    ((handleMIDIMessage [144, 60, 100] []).2 ++
      (handleMIDIMessage [144, 60, 100] (handleMIDIMessage [144, 60, 100] []).1).2).count
        (PianoCall.playNote 60 100) = 2 ∧
    (handleMIDIMessage [144, 60, 100] (handleMIDIMessage [144, 60, 100] []).1).1 = [60] := by
  constructor <;> decide

/-- C5 (amended): `handleMIDIMessage` recognizes only the exact status bytes
144 (0x90, note-on, channel 0) and 128 (0x80, note-off, channel 0);
messages shorter than 3 bytes and all other status bytes are ignored. -/
theorem midi_message_channel0_classification :
    ∀ (data : List ℕ) (activeNotes : List ℤ),
      handleMIDIMessage data activeNotes =
        applyMidiIntent activeNotes (classifyMidiChannel0 data) := by
  intro data activeNotes
  unfold handleMIDIMessage classifyMidiChannel0
  dsimp only
  split_ifs <;> rfl

/-- C5 counterexample: a note-on on channel 1 (status 0x91 = 145) is ignored
by `handleMIDIMessage`, while the claim's channel-agnostic reading would
treat it exactly like the channel-0 message (status 144), which does fire. -/
theorem midi_channel_nibble_counterexample :
    handleMIDIMessage [145, 60, 100] [] = ([], []) ∧
    applyMidiIntent [] (classifyMidiNibble [145, 60, 100]) =
      ([60], [.animateKey 60 true, .playNote 60 100, .onNoteOn 60 100]) ∧
    handleMIDIMessage [144, 60, 100] [] =
      ([60], [.animateKey 60 true, .playNote 60 100, .onNoteOn 60 100]) := by
  refine ⟨by decide, by decide, by decide⟩

/-! ## Theorems: drift rescaling (claims C6, C10) -/

/-- C6 (amended): event times are rescaled by `audioDurationMs /
lastEventTime` if and only if the file has no tempo meta, an audio duration
is known (the resolved duration is always positive when known), the last
event time is positive, and the ratio deviates from 1 by more than 5%; in
particular a 10% duration deviation rescales every time by 1.1 while a 2%
deviation leaves all times unchanged. -/
theorem drift_rescale_iff :
    (∀ (rawEvents : List RecordingEvent) (hasTempoMeta : Bool) (audioDurationMs : Option ℚ),
      (∀ d, audioDurationMs = some d → 0 < d) →
      scaledEvents rawEvents hasTempoMeta audioDurationMs =
        driftRescaleSpecAmended rawEvents hasTempoMeta audioDurationMs) ∧
    scaledEvents [⟨.on, 60, 1, 5000⟩, ⟨.off, 60, 0, 10000⟩] false (some 11000) =
      [⟨.on, 60, 1, 5500⟩, ⟨.off, 60, 0, 11000⟩] ∧
    scaledEvents [⟨.on, 60, 1, 5000⟩, ⟨.off, 60, 0, 10000⟩] false (some 10200) =
      [⟨.on, 60, 1, 5000⟩, ⟨.off, 60, 0, 10000⟩] := by
  refine ⟨?_, ?_, ?_⟩
  case refine_2 =>
    have hlast : lastEventTimeOf [⟨.on, 60, 1, 5000⟩, ⟨.off, 60, 0, 10000⟩] = 10000 := rfl
    unfold scaledEvents needsScaling jsTruthyOpt
    rw [hlast]
    norm_num
    rw [abs_of_nonneg (by norm_num : (0 : ℚ) ≤ 1 / 10)]
    norm_num
  case refine_3 =>
    have hlast : lastEventTimeOf [⟨.on, 60, 1, 5000⟩, ⟨.off, 60, 0, 10000⟩] = 10000 := rfl
    unfold scaledEvents needsScaling jsTruthyOpt
    rw [hlast]
    norm_num
    rw [abs_of_nonneg (by norm_num : (0 : ℚ) ≤ 1 / 50)]
    norm_num
  intro rawEvents hasTempoMeta audioDurationMs hdur
  unfold scaledEvents needsScaling driftRescaleSpecAmended
  cases audioDurationMs with
  | none => simp [jsTruthyOpt]
  | some d =>
      have hd : 0 < d := hdur d rfl
      have ht : jsTruthyOpt (some d) = true := by
        simp [jsTruthyOpt]
        exact ne_of_gt hd
      simp [ht]

/-- Witness for C6 at a concrete input. -/
theorem drift_rescale_iff_witness :
    scaledEvents [⟨.on, 60, 1, 100⟩] false (some 6000) =
      driftRescaleSpecAmended [⟨.on, 60, 1, 100⟩] false (some 6000) :=
  drift_rescale_iff.1 [⟨.on, 60, 1, 100⟩] false (some 6000)
    (by intro d h; cases h; norm_num)

/-- C6 counterexample: a decoded event list whose last event time is 0 (the
decoder can produce such lists, e.g. from wrapped 33-bit delta times followed
by a zero-absolute-time event) is left unchanged by the engine, while the
claim's three-condition rule demands a rescale that changes the times
(|duration/lastEventTime - 1| exceeds 5% as the division is degenerate). -/
theorem drift_rescale_iff_counterexample :
    scaledEvents [⟨.on, 60, 1, -25/12⟩, ⟨.off, 60, 0, 0⟩] false (some 1000) =
      [⟨.on, 60, 1, -25/12⟩, ⟨.off, 60, 0, 0⟩] ∧
    driftRescaleSpecC6 [⟨.on, 60, 1, -25/12⟩, ⟨.off, 60, 0, 0⟩] false (some 1000) ≠
      [⟨.on, 60, 1, -25/12⟩, ⟨.off, 60, 0, 0⟩] := by
  have hlast : lastEventTimeOf [⟨.on, 60, 1, -25/12⟩, ⟨.off, 60, 0, 0⟩] = 0 := rfl
  constructor
  · unfold scaledEvents needsScaling jsTruthyOpt
    rw [hlast]
    norm_num
  · unfold driftRescaleSpecC6
    rw [hlast]
    norm_num

/-- C10: the synchronized playback engine never divides by a zero
`lastEventTime`: an empty fetched event list returns before any timing
computation; a zero last event time makes `needsScaling` false; `needsScaling`
true forces a positive last event time; and every scaled event is either an
original event or an original event whose time was multiplied by
`audioDurationMs / lastEventTime` with a positive denominator. -/
theorem playback_scaling_no_zero_denominator :
    (∀ (hasTempoMeta : Bool) (audioDurationMs : Option ℚ),
      startSynchronizedPlaybackEvents [] hasTempoMeta audioDurationMs = none) ∧
    (∀ raw meta dur, lastEventTimeOf raw = 0 → needsScaling raw meta dur = false) ∧
    (∀ raw meta dur, needsScaling raw meta dur = true → 0 < lastEventTimeOf raw) ∧
    (∀ raw meta dur e, e ∈ scaledEvents raw meta dur →
      e ∈ raw ∨ (0 < lastEventTimeOf raw ∧ ∃ e0 ∈ raw,
        e = { e0 with time := e0.time * (dur.getD 0 / lastEventTimeOf raw) })) := by
  refine ⟨?_, ?_, ?_, ?_⟩
  · intro meta dur
    rfl
  · intro raw meta dur h
    unfold needsScaling
    rw [h]
    simp
  · intro raw meta dur h
    unfold needsScaling at h
    simp only [Bool.and_eq_true, decide_eq_true_eq] at h
    exact h.1.2
  · intro raw meta dur e he
    unfold scaledEvents at he
    by_cases hns : needsScaling raw meta dur = true
    · right
      constructor
      · unfold needsScaling at hns
        simp only [Bool.and_eq_true, decide_eq_true_eq] at hns
        exact hns.1.2
      · rw [if_pos hns] at he
        obtain ⟨e0, he0, heq⟩ := List.mem_map.1 he
        exact ⟨e0, he0, heq.symm⟩
    · left
      rw [if_neg hns] at he
      exact he

/-- Witness for C10 at a concrete input. -/
theorem playback_scaling_no_zero_denominator_witness :
    needsScaling [] false (some 1000) = false :=
  playback_scaling_no_zero_denominator.2.1 [] false (some 1000) rfl

/-! ## Theorems: scrub detection (claim C7) -/

/-- C7: on a frame whose sampled audio time satisfies
`currentTimeMs + toleranceMs < lastObservedTimeMs`, the engine behaves
exactly like a frame started from the reset state (event cursor 0, empty
ghost set), except that it first emits a release animation for every ghost
note not simultaneously held by real input. -/
theorem scrub_resets_cursor_and_ghosts (pendingEvents : List RecordingEvent)
    (activeNotes : List ℤ) (currentTimeMs : ℚ) (st : PlaybackVisState)
    (h : currentTimeMs + 25 < st.lastTime) :
    runFrame pendingEvents activeNotes currentTimeMs st =
      ((runFrame pendingEvents activeNotes currentTimeMs ⟨0, [], currentTimeMs⟩).1,
        (st.ghosts.filter (fun n => !(activeNotes.contains n))).map
          (fun n => PianoCall.animateKey n false) ++
          (runFrame pendingEvents activeNotes currentTimeMs ⟨0, [], currentTimeMs⟩).2) := by
  unfold runFrame
  have hns : ¬(currentTimeMs + 25 < currentTimeMs) := by linarith
  simp [h, hns]

/-- Witness for C7 at a concrete scrubbed frame. -/
theorem scrub_resets_cursor_and_ghosts_witness :
    (0 : ℚ) + 25 < (100 : ℚ) ∧
    runFrame [] [] 0 ⟨3, [60], 100⟩ =
      ((runFrame [] [] 0 ⟨0, [], 0⟩).1,
        (([60] : List ℤ).filter (fun n => !(([] : List ℤ).contains n))).map
          (fun n => PianoCall.animateKey n false) ++ (runFrame [] [] 0 ⟨0, [], 0⟩).2) :=
  ⟨by norm_num, scrub_resets_cursor_and_ghosts [] [] 0 ⟨3, [60], 100⟩ (by norm_num)⟩

/-! ## Theorems: key animation loop (claim C9) -/

theorem iterTick_succ_outer (n : ℕ) (a : KeyAnim) :
    iterTick (n + 1) a = (animTick (iterTick n a)).1 := by
  induction n generalizing a with
  | zero => rfl
  | succ m ih =>
      show iterTick (m + 1) (animTick a).1 = _
      rw [ih (animTick a).1]
      rfl

theorem iterTick_formula :
    ∀ (n : ℕ) (p : ℚ), 0 ≤ 1 - p → 1 / 100 < (17 / 20) ^ n * (1 - p) →
      iterTick (n + 1) ⟨p, 1⟩ = ⟨1 - (17 / 20) ^ (n + 1) * (1 - p), 1⟩ := by
  intro n
  induction n with
  | zero =>
      intro p hp h
      rw [pow_zero, one_mul] at h
      show iterTick 0 (animTick ⟨p, 1⟩).1 = _
      have habs : |(1 : ℚ) - p| = 1 - p := abs_of_nonneg hp
      unfold animTick iterTick
      dsimp only
      rw [if_pos (by rw [habs]; exact h)]
      have harith : p + (1 - p) * (3 / 20) = 1 - (17 / 20) ^ (0 + 1) * (1 - p) := by ring
      rw [harith]
  | succ m ih =>
      intro p hp h
      have hpow1 : ((17 : ℚ) / 20) ^ (m + 1) ≤ 1 := by
        apply pow_le_one₀ <;> norm_num
      have hgap : 1 / 100 < 1 - p := by
        calc (1 : ℚ) / 100 < (17 / 20) ^ (m + 1) * (1 - p) := h
          _ ≤ 1 * (1 - p) := mul_le_mul_of_nonneg_right hpow1 hp
          _ = 1 - p := one_mul _
      have habs : |(1 : ℚ) - p| = 1 - p := abs_of_nonneg hp
      show iterTick (m + 1 + 1) ⟨p, 1⟩ = _
      have hstep : (animTick ⟨p, 1⟩).1 = ⟨p + (1 - p) * (3 / 20), 1⟩ := by
        unfold animTick
        dsimp only
        rw [if_pos (by rw [habs]; exact hgap)]
      have hrec : iterTick (m + 1 + 1) ⟨p, 1⟩ = iterTick (m + 1) (animTick ⟨p, 1⟩).1 := rfl
      rw [hrec, hstep]
      have hp' : 0 ≤ 1 - (p + (1 - p) * (3 / 20)) := by nlinarith
      have h' : 1 / 100 < (17 / 20) ^ m * (1 - (p + (1 - p) * (3 / 20))) := by
        have : (1 : ℚ) - (p + (1 - p) * (3 / 20)) = (17 / 20) * (1 - p) := by ring
        rw [this, ← mul_assoc, ← pow_succ]
        exact h
      have harith : 1 - (17 / 20) ^ (m + 1) * (1 - (p + (1 - p) * (3 / 20))) =
          1 - (17 / 20) ^ (m + 1 + 1) * (1 - p) := by ring
      rw [ih _ hp' h', harith]

theorem any_key_of_mapGet_some {m : List (ℕ × KeyAnim)} {k : ℕ} {a : KeyAnim}
    (h : mapGet m k = some a) : m.any (fun p => p.1 = k) = true := by
  unfold mapGet at h
  rw [Option.map_eq_some'] at h
  obtain ⟨pr, hfind, _⟩ := h
  rw [List.any_eq_true]
  refine ⟨pr, List.mem_of_find?_eq_some hfind, ?_⟩
  have hp := List.find?_some hfind
  simpa using hp

theorem mem_mapSet_self {m : List (ℕ × KeyAnim)} {k : ℕ} (v : KeyAnim)
    (h : m.any (fun p => p.1 = k) = true) : (k, v) ∈ mapSet m k v := by
  unfold mapSet
  rw [if_pos h]
  rw [List.any_eq_true] at h
  obtain ⟨p, hp, hpk⟩ := h
  rw [decide_eq_true_eq] at hpk
  exact List.mem_map.2 ⟨p, hp, by rw [if_pos hpk]⟩

/-- C9: per-key animation converges geometrically — from `progress = 0`,
`target = 1` the eased progress reaches `1 - 0.85^29`, within the 0.01
threshold, after 29 ticks, and the 30th tick snaps it exactly to the target;
once every key of the map is within the threshold an `animate` frame reports
`needsUpdate = false`, so the driver schedules no further frame; and from a
stopped driver (`animationId` null) a target change through `animateKey`
immediately runs a frame that schedules a follow-up. -/
theorem animation_convergence_and_driver :
    (iterTick 29 ⟨0, 1⟩ = ⟨1 - (17 / 20) ^ 29, 1⟩ ∧
      |(1 : ℚ) - (iterTick 29 ⟨0, 1⟩).progress| ≤ 1 / 100 ∧
      iterTick 30 ⟨0, 1⟩ = ⟨1, 1⟩) ∧
    (∀ anims : List (ℕ × KeyAnim),
      (∀ p ∈ anims, |p.2.target - p.2.progress| ≤ 1 / 100) →
      (animFrame anims).2 = false) ∧
    (∀ (st : AnimDriverState) (note : ℕ) (a : KeyAnim), st.animationId = false →
      mapGet st.anims note = some a → 1 / 100 < |1 - a.progress| →
      (animateKey note true st).animationId = true) := by
  have hpow28 : (1 : ℚ) / 100 < (17 / 20) ^ 28 := by norm_num
  have hpow29 : ((17 : ℚ) / 20) ^ 29 ≤ 1 / 100 := by norm_num
  have hpow29pos : (0 : ℚ) < (17 / 20) ^ 29 := by positivity
  have h29 : iterTick 29 ⟨0, 1⟩ = ⟨1 - (17 / 20) ^ 29, 1⟩ := by
    have := iterTick_formula 28 0 (by norm_num) (by rw [sub_zero, mul_one]; exact hpow28)
    rw [sub_zero, mul_one] at this
    exact this
  refine ⟨⟨h29, ?_, ?_⟩, ?_, ?_⟩
  · rw [h29]
    show |(1 : ℚ) - (1 - (17 / 20) ^ 29)| ≤ 1 / 100
    rw [show (1 : ℚ) - (1 - (17 / 20) ^ 29) = (17 / 20) ^ 29 by ring,
      abs_of_pos hpow29pos]
    exact hpow29
  · rw [show (30 : ℕ) = 29 + 1 from rfl, iterTick_succ_outer, h29]
    unfold animTick
    dsimp only
    have hnotlt : ¬ (1 / 100 < |(1 : ℚ) - (1 - (17 / 20) ^ 29)|) := by
      rw [show (1 : ℚ) - (1 - (17 / 20) ^ 29) = (17 / 20) ^ 29 by ring,
        abs_of_pos hpow29pos]
      exact not_lt.2 hpow29
    rw [if_neg hnotlt]
  · intro anims h
    unfold animFrame
    dsimp only
    rw [Bool.eq_false_iff]
    intro hany
    rw [List.any_eq_true] at hany
    obtain ⟨p, hp, hf⟩ := hany
    by_cases hc : 1 / 100 < |p.2.target - p.2.progress|
    · exact absurd (h p hp) (not_le.2 hc)
    · unfold animTick at hf
      dsimp only at hf
      rw [if_neg hc] at hf
      simp at hf
  · intro st note a hid hget hfar
    have hany := any_key_of_mapGet_some hget
    unfold animateKey
    dsimp only
    rw [hid, if_pos hany, hget]
    rw [if_neg (by simp)]
    dsimp only
    unfold animFrame
    dsimp only
    rw [List.any_eq_true]
    refine ⟨(note, ⟨a.progress, 1⟩), ?_, ?_⟩
    · have hmem := mem_mapSet_self
        (⟨(Option.getD (some a) ⟨0, 0⟩).progress, if true = true then 1 else 0⟩ : KeyAnim) hany
      simpa using hmem
    · have hcond : 1 / 100 <
          |(⟨a.progress, 1⟩ : KeyAnim).target - (⟨a.progress, 1⟩ : KeyAnim).progress| := by
        simpa using hfar
      unfold animTick
      dsimp only
      rw [if_pos hcond]

/-- Witness for C9 at concrete inputs. -/
theorem animation_convergence_and_driver_witness :
    (animFrame [(60, ⟨1, 1⟩)]).2 = false ∧
    (animateKey 60 true ⟨[(60, ⟨0, 0⟩)], false⟩).animationId = true := by
  constructor
  · apply animation_convergence_and_driver.2.1
    intro p hp
    rw [List.mem_singleton] at hp
    subst hp
    norm_num
  · apply animation_convergence_and_driver.2.2 ⟨[(60, ⟨0, 0⟩)], false⟩ 60 ⟨0, 0⟩ rfl rfl
    norm_num

/-! ## Theorems: decoder error handling and skipping (claims C2, C3) -/

theorem except_ok_bind {ε α β : Type} (a : α) (f : α → Except ε β) :
    (Except.ok a >>= f : Except ε β) = f a := rfl

theorem except_error_bind {ε α β : Type} (e : ε) (f : α → Except ε β) :
    (Except.error e >>= f : Except ε β) = .error e := rfl

theorem trackEventStep_spinBuf :
    trackEventStep spinBuf ⟨8, 0, 1000000, false, []⟩ =
      .ok ⟨8, 0, 1000000, false, []⟩ := by decide

theorem trackLoop_spinBuf (fuel : ℕ) :
    trackLoop spinBuf 108 fuel ⟨8, 0, 1000000, false, []⟩ = .error .spin := by
  induction fuel with
  | zero => rfl
  | succ f ih =>
      simp only [trackLoop]
      rw [if_pos (by norm_num), trackEventStep_spinBuf]
      simpa using ih

theorem decodeMidiToEvents_spinBuf (fuel : ℕ) :
    decodeMidiToEvents spinBuf fuel = .error .spin := by
  unfold decodeMidiToEvents
  rw [show getU32 spinBuf 0 = .ok 0x4D54726B from by decide, except_ok_bind]
  rw [show (if (0x4D54726B : ℕ) = 0x4D546864 then (14 : ℕ) else 0) = 0 from by norm_num]
  rw [show scanForTrack spinBuf fuel 0 = scanForTrackAux spinBuf fuel 17 0 from rfl]
  simp only [scanForTrackAux]
  rw [if_pos (by norm_num [spinBuf])]
  rw [show getU32 spinBuf ((0 : ℕ) : ℤ) = .ok 0x4D54726B from by decide, except_ok_bind]
  rw [if_pos rfl]
  rw [show getU32 spinBuf (((0 : ℕ) : ℤ) + 4) = .ok 100 from by decide, except_ok_bind]
  rw [show ((0 : ℕ) : ℤ) + 8 + ((100 : ℕ) : ℤ) = 108 from by norm_num,
    show ((0 : ℕ) : ℤ) + 8 = 8 from by norm_num]
  rw [trackLoop_spinBuf fuel, except_error_bind, except_error_bind]

/-- C2: a crafted malformed buffer (`MTrk` chunk whose meta event declares
the wrapped variable-length quantity -8) makes the decoder's track loop
revisit the same state forever, so `getRecordingEvents` never returns at all
— it neither throws nor produces the empty default result; whenever decoding
does terminate, the entry point never propagates the exception: it returns
the decoded result, and the empty default result whenever the decoder threw. -/
theorem getRecordingEvents_never_throws :
    (∀ fuel, decodeMidiToEvents spinBuf fuel = .error .spin) ∧
    (∀ fuel, getRecordingEvents spinBuf fuel = none) ∧
    (∀ (buf : List ℕ) (fuel : ℕ), decodeMidiToEvents buf fuel = .error .range →
      getRecordingEvents buf fuel = some ⟨[], false, 1000000⟩) ∧
    (∀ (buf : List ℕ) (fuel : ℕ) (r : RecordingEventsResult),
      decodeMidiToEvents buf fuel = .ok r → getRecordingEvents buf fuel = some r) := by
  refine ⟨decodeMidiToEvents_spinBuf, ?_, ?_, ?_⟩
  · intro fuel
    unfold getRecordingEvents
    rw [decodeMidiToEvents_spinBuf fuel]
  · intro buf fuel h
    unfold getRecordingEvents
    rw [h]
  · intro buf fuel r h
    unfold getRecordingEvents
    rw [h]

/-- Witness for C2: a 1-byte buffer makes the very first `DataView` read
throw, and the entry point returns the default empty result. -/
theorem getRecordingEvents_never_throws_witness :
    getRecordingEvents [0] 5 = some ⟨[], false, 1000000⟩ :=
  getRecordingEvents_never_throws.2.2.1 [0] 5 (by decide)

/-- C3 (amended): a meta event other than the tempo meta is skipped over its
declared length with no event emitted and no state change besides the delta
time; but any other channel event (status not 0xFF, high nibble neither 0x9
nor 0x8) has exactly one byte skipped after its status byte — not its
declared length — leaving its remaining data bytes to be misparsed. -/
theorem other_event_skip_behaviour :
    (∀ (buf : List ℕ) (st : TrackState) (δ o1 : ℤ) (mt : ℕ) (len o3 : ℤ),
      readVarLen buf st.offset 0 = .ok (δ, o1) →
      getU8 buf o1 = .ok 255 →
      getU8 buf (o1 + 1) = .ok mt →
      readVarLen buf (o1 + 1 + 1) 0 = .ok (len, o3) →
      ¬(mt = 81 ∧ len = 3) →
      trackEventStep buf st = .ok ⟨o3 + len, st.absoluteTime + δ,
        st.microsecondsPerQuarter, st.hasTempoMeta, st.events⟩) ∧
    (∀ (buf : List ℕ) (st : TrackState) (δ o1 : ℤ) (et : ℕ),
      readVarLen buf st.offset 0 = .ok (δ, o1) →
      getU8 buf o1 = .ok et →
      et ≠ 255 → jsAnd (et : ℤ) 240 ≠ 144 → jsAnd (et : ℤ) 240 ≠ 128 →
      trackEventStep buf st = .ok ⟨o1 + 1 + 1, st.absoluteTime + δ,
        st.microsecondsPerQuarter, st.hasTempoMeta, st.events⟩) := by
  constructor
  · intro buf st δ o1 mt len o3 hrv het hmeta hlen hnot
    unfold trackEventStep
    rw [hrv, except_ok_bind]
    dsimp only
    rw [het, except_ok_bind]
    rw [if_pos rfl]
    rw [hmeta, except_ok_bind, hlen, except_ok_bind]
    dsimp only
    rw [if_neg hnot]
    rfl
  · intro buf st δ o1 et hrv het hne h90 h80
    unfold trackEventStep
    rw [hrv, except_ok_bind]
    dsimp only
    rw [het, except_ok_bind]
    rw [if_neg hne, if_neg h90, if_neg h80]
    rfl

/-- Witness for C3 at the end-of-track meta event of a concrete track. -/
theorem other_event_skip_behaviour_witness :
    trackEventStep ccFreeBuf ⟨12, 0, 1000000, false, []⟩ =
      .ok ⟨16, 0, 1000000, false, []⟩ := by
  have h := other_event_skip_behaviour.1 ccFreeBuf ⟨12, 0, 1000000, false, []⟩ 0 13 47 0 16
    (by decide) (by decide) (by decide) (by decide) (by decide)
  simpa using h

/-- C3 counterexample: with a 3-byte control-change event in front of a
note-on, the decoder (which skips only one byte of the control change)
produces no events at all, whereas the identical track without the control
change decodes the note-on; the control change is thus not skipped by its
declared length and it corrupts the decoding of the events after it. -/
theorem other_event_skip_counterexample :
    decodeMidiToEvents ccBuf 10 = .ok ⟨[], false, 1000000⟩ ∧
    (decodeMidiToEvents ccFreeBuf 10).map
      (fun r => (r.events.map (fun e => (e.type, e.note)), r.hasTempoMeta)) =
      .ok ([(EvType.on, 60)], false) := by
  constructor <;> decide

/-! ## Theorems: the MIDI codec roundtrip (C1) -/

theorem getD_append_shift (pre suf : List ℕ) (j : ℕ) :
    (pre ++ suf).getD (pre.length + j) 0 = suf.getD j 0 := by
  simp only [List.getD_eq_getElem?_getD]
  rw [List.getElem?_append_right (Nat.le_add_right _ _)]
  simp

theorem getD_append_left (pre suf : List ℕ) (j : ℕ) (hj : j < pre.length) :
    (pre ++ suf).getD j 0 = pre.getD j 0 := by
  simp only [List.getD_eq_getElem?_getD, List.getElem?_append_left hj]

theorem getU8_append (pre suf : List ℕ) (j : ℕ) (hj : j < suf.length) :
    getU8 (pre ++ suf) ((pre.length : ℤ) + (j : ℤ)) = .ok (suf.getD j 0) := by
  unfold getU8
  rw [if_pos]
  · have h1 : ((pre.length : ℤ) + (j : ℤ)).toNat = pre.length + j := by omega
    rw [h1, getD_append_shift]
  · constructor
    · positivity
    · rw [List.length_append]
      push_cast
      omega

theorem jsShr_coe (x k : ℕ) (h : x < 2 ^ 31) : jsShr (x : ℤ) k = ((x / 2 ^ k : ℕ) : ℤ) := by
  unfold jsShr
  rw [toInt32_coe_of_lt h]
  exact_mod_cast (Int.ofNat_fdiv x (2 ^ k)).symm

theorem jsShl_coe (x k : ℕ) (h : x * 2 ^ k < 2 ^ 31) :
    jsShl (x : ℤ) k = ((x * 2 ^ k : ℕ) : ℤ) := by
  unfold jsShl
  have h1 : (x : ℤ) * 2 ^ k = ((x * 2 ^ k : ℕ) : ℤ) := by push_cast; ring
  rw [h1, toInt32_coe_of_lt h]

theorem jsAnd127_coe (x : ℕ) (h : x < 2 ^ 32) : jsAnd (x : ℤ) 127 = ((x % 128 : ℕ) : ℤ) := by
  rw [jsAnd_127 (by positivity) (by exact_mod_cast h)]
  push_cast
  omega

theorem jsAnd255_coe (x : ℕ) (h : x < 2 ^ 32) : jsAnd (x : ℤ) 255 = ((x % 256 : ℕ) : ℤ) := by
  rw [jsAnd_255 (by positivity) (by exact_mod_cast h)]
  push_cast
  omega

theorem jsAnd128_coe (x : ℕ) (h : x < 2 ^ 32) :
    jsAnd (x : ℤ) 128 = ((x / 128 % 2 * 128 : ℕ) : ℤ) := by
  have h128 : ((128 : ℕ) : ℤ) = (128 : ℤ) := by norm_num
  rw [← h128, jsAnd_small 128 (by positivity) (by exact_mod_cast h) (by norm_num),
    Int.toNat_natCast]
  congr 1
  have h2 := Nat.and_two_pow x 7
  norm_num at h2
  rw [h2, Nat.testBit_to_div_mod]
  by_cases hb : x / 2 ^ 7 % 2 = 1
  · simp only [hb]
    norm_num
    omega
  · have h0 : x / 2 ^ 7 % 2 = 0 := by omega
    simp only [hb]
    norm_num
    omega

theorem jsOr_disjoint (k q r : ℕ) (hr : r < 2 ^ k) (h31 : 2 ^ k * q + r < 2 ^ 31) :
    jsOr ((2 ^ k * q : ℕ) : ℤ) ((r : ℕ) : ℤ) = ((2 ^ k * q + r : ℕ) : ℤ) := by
  unfold jsOr
  rw [toUint32_coe _ (by omega), toUint32_coe _ (by omega)]
  rw [← Nat.mul_add_lt_is_or hr q]
  exact toInt32_coe_of_lt (by omega)

theorem varlen_acc_step (acc b : ℕ) (hacc : acc < 2 ^ 24) (hb : b < 2 ^ 32) :
    jsOr (jsShl (acc : ℤ) 7) (jsAnd (b : ℤ) 127) = ((acc * 128 + b % 128 : ℕ) : ℤ) := by
  rw [jsShl_coe acc 7 (by omega), jsAnd127_coe b hb]
  rw [show acc * 2 ^ 7 = 2 ^ 7 * acc from by ring]
  rw [jsOr_disjoint 7 acc (b % 128) (by omega) (by omega)]
  congr 1
  ring

theorem option_some_bind {α β : Type} (a : α) (f : α → Option β) :
    (some a >>= f : Option β) = f a := rfl

theorem jsOr_comm (a b : ℤ) : jsOr a b = jsOr b a := by
  unfold jsOr
  rw [Nat.lor_comm]

theorem writeVarLenLoop1_cont (f : ℕ) (val v : ℕ) (hval : val < 2 ^ 31)
    (hv : v * 256 + 256 ≤ 2 ^ 31) (hval1 : 0 < val / 2 ^ 7) :
    writeVarLenLoop1 (f + 1) (val : ℤ) (v : ℤ) =
      writeVarLenLoop1 f ((val / 2 ^ 7 : ℕ) : ℤ)
        ((v * 256 + (val / 2 ^ 7 % 128 + 128) : ℕ) : ℤ) := by
  have harg : jsOr (jsShl (v : ℤ) 8) (jsOr (jsAnd ((val / 2 ^ 7 : ℕ) : ℤ) 127) 128) =
      ((v * 256 + (val / 2 ^ 7 % 128 + 128) : ℕ) : ℤ) := by
    rw [jsAnd127_coe (val / 2 ^ 7) (by omega)]
    rw [show (128 : ℤ) = ((2 ^ 7 * 1 : ℕ) : ℤ) from by norm_num]
    rw [jsOr_comm ((val / 2 ^ 7 % 128 : ℕ) : ℤ) ((2 ^ 7 * 1 : ℕ) : ℤ)]
    rw [jsOr_disjoint 7 1 (val / 2 ^ 7 % 128) (by omega) (by omega)]
    rw [jsShl_coe v 8 (by omega)]
    rw [show (v * 2 ^ 8 : ℕ) = (2 ^ 8 * v : ℕ) from by ring]
    rw [jsOr_disjoint 8 v (2 ^ 7 * 1 + val / 2 ^ 7 % 128) (by omega) (by omega)]
    exact Nat.cast_inj.mpr (by omega)
  simp only [writeVarLenLoop1]
  rw [jsShr_coe val 7 hval]
  rw [if_pos (Int.natCast_ne_zero.mpr (by omega))]
  rw [harg]

theorem writeVarLenLoop1_exit (f : ℕ) (val v : ℕ) (hval : val < 2 ^ 31)
    (hval1 : val / 2 ^ 7 = 0) :
    writeVarLenLoop1 (f + 1) (val : ℤ) (v : ℤ) = some (v : ℤ) := by
  simp only [writeVarLenLoop1]
  rw [jsShr_coe val 7 hval, hval1]
  norm_num

theorem writeVarLenLoop2_cont (f : ℕ) (v : ℕ) (buffer : List ℤ) (hv : v < 2 ^ 31)
    (hbit : v / 128 % 2 = 1) :
    writeVarLenLoop2 (f + 1) (v : ℤ) buffer =
      writeVarLenLoop2 f ((v / 2 ^ 8 : ℕ) : ℤ) (buffer ++ [((v % 256 : ℕ) : ℤ)]) := by
  simp only [writeVarLenLoop2]
  rw [jsAnd255_coe v (by omega), jsAnd128_coe v (by omega), hbit]
  rw [if_pos (by norm_num)]
  rw [jsShr_coe v 8 hv]

theorem writeVarLenLoop2_exit (f : ℕ) (v : ℕ) (buffer : List ℤ) (hv : v < 2 ^ 31)
    (hbit : v / 128 % 2 = 0) :
    writeVarLenLoop2 (f + 1) (v : ℤ) buffer = some (buffer ++ [((v % 256 : ℕ) : ℤ)]) := by
  simp only [writeVarLenLoop2]
  rw [jsAnd255_coe v (by omega), jsAnd128_coe v (by omega), hbit]
  rw [if_neg (by norm_num)]

theorem writeVarLenLoop2_cont_split (f : ℕ) (q r : ℕ) (buffer : List ℤ)
    (hq : q * 256 + 256 ≤ 2 ^ 31) (hr1 : 128 ≤ r) (hr2 : r < 256) :
    writeVarLenLoop2 (f + 1) ((q * 256 + r : ℕ) : ℤ) buffer =
      writeVarLenLoop2 f ((q : ℕ) : ℤ) (buffer ++ [((r : ℕ) : ℤ)]) := by
  have h1 : (q * 256 + r) / 128 % 2 = 1 := by omega
  have h2 : (q * 256 + r) % 256 = r := by omega
  have h3 : (q * 256 + r) / 2 ^ 8 = q := by omega
  rw [writeVarLenLoop2_cont f (q * 256 + r) buffer (by omega) h1, h2, h3]

theorem writeVarLenLoop2_exit_small (f : ℕ) (r : ℕ) (buffer : List ℤ) (hr : r < 128) :
    writeVarLenLoop2 (f + 1) (r : ℤ) buffer = some (buffer ++ [(r : ℤ)]) := by
  have h1 : r / 128 % 2 = 0 := by omega
  have h2 : r % 256 = r := by omega
  rw [writeVarLenLoop2_exit f r buffer (by omega) h1, h2]

theorem writeVarLen_eq_varBytes (d : ℕ) (hd : d < 2 ^ 28) :
    writeVarLen (d : ℤ) = some ((varBytes d).map (fun b : ℕ => (b : ℤ))) := by
  have hd31 : d < 2 ^ 31 := by omega
  unfold writeVarLen varBytes
  rw [jsAnd127_coe d (by omega)]
  by_cases h1 : d < 2 ^ 7
  · rw [writeVarLenLoop1_exit 7 d (d % 128) hd31 (by omega), option_some_bind]
    rw [show (d % 128 : ℕ) = d from by omega]
    rw [writeVarLenLoop2_exit_small 7 d [] (by omega)]
    rw [if_pos h1]
    simp
  · by_cases h2 : d < 2 ^ 14
    · rw [writeVarLenLoop1_cont 7 d (d % 128) hd31 (by omega) (by omega)]
      rw [writeVarLenLoop1_exit 6 (d / 2 ^ 7)
        (d % 128 * 256 + (d / 2 ^ 7 % 128 + 128)) (by omega)
        (by rw [Nat.div_div_eq_div_mul]; omega)]
      rw [option_some_bind]
      rw [writeVarLenLoop2_cont_split 7 (d % 128) (d / 2 ^ 7 % 128 + 128) []
        (by omega) (by omega) (by omega)]
      rw [writeVarLenLoop2_exit_small 6 (d % 128) _ (by omega)]
      rw [if_neg h1, if_pos h2]
      rw [show d / 2 ^ 7 % 128 + 128 = d / 2 ^ 7 + 128 from by omega]
      simp
    · by_cases h3 : d < 2 ^ 21
      · have hdd : d / 2 ^ 7 / 2 ^ 7 = d / 2 ^ 14 := by
          rw [Nat.div_div_eq_div_mul]
          norm_num
        rw [writeVarLenLoop1_cont 7 d (d % 128) hd31 (by omega) (by omega)]
        rw [writeVarLenLoop1_cont 6 (d / 2 ^ 7)
          (d % 128 * 256 + (d / 2 ^ 7 % 128 + 128)) (by omega) (by omega) (by omega)]
        rw [hdd]
        rw [writeVarLenLoop1_exit 5 (d / 2 ^ 14)
          ((d % 128 * 256 + (d / 2 ^ 7 % 128 + 128)) * 256 + (d / 2 ^ 14 % 128 + 128))
          (by omega) (by rw [Nat.div_div_eq_div_mul]; omega)]
        rw [option_some_bind]
        rw [writeVarLenLoop2_cont_split 7 (d % 128 * 256 + (d / 2 ^ 7 % 128 + 128))
          (d / 2 ^ 14 % 128 + 128) [] (by omega) (by omega) (by omega)]
        rw [writeVarLenLoop2_cont_split 6 (d % 128) (d / 2 ^ 7 % 128 + 128) _
          (by omega) (by omega) (by omega)]
        rw [writeVarLenLoop2_exit_small 5 (d % 128) _ (by omega)]
        rw [if_neg h1, if_neg h2, if_pos h3]
        rw [show d / 2 ^ 14 % 128 + 128 = d / 2 ^ 14 + 128 from by omega]
        simp
      · have hdd : d / 2 ^ 7 / 2 ^ 7 = d / 2 ^ 14 := by
          rw [Nat.div_div_eq_div_mul]
          norm_num
        have hdd2 : d / 2 ^ 14 / 2 ^ 7 = d / 2 ^ 21 := by
          rw [Nat.div_div_eq_div_mul]
          norm_num
        rw [writeVarLenLoop1_cont 7 d (d % 128) hd31 (by omega) (by omega)]
        rw [writeVarLenLoop1_cont 6 (d / 2 ^ 7)
          (d % 128 * 256 + (d / 2 ^ 7 % 128 + 128)) (by omega) (by omega) (by omega)]
        rw [hdd]
        rw [writeVarLenLoop1_cont 5 (d / 2 ^ 14)
          ((d % 128 * 256 + (d / 2 ^ 7 % 128 + 128)) * 256 + (d / 2 ^ 14 % 128 + 128))
          (by omega) (by omega) (by omega)]
        rw [hdd2]
        rw [writeVarLenLoop1_exit 4 (d / 2 ^ 21)
          (((d % 128 * 256 + (d / 2 ^ 7 % 128 + 128)) * 256 + (d / 2 ^ 14 % 128 + 128))
            * 256 + (d / 2 ^ 21 % 128 + 128))
          (by omega) (by rw [Nat.div_div_eq_div_mul]; omega)]
        rw [option_some_bind]
        rw [writeVarLenLoop2_cont_split 7
          ((d % 128 * 256 + (d / 2 ^ 7 % 128 + 128)) * 256 + (d / 2 ^ 14 % 128 + 128))
          (d / 2 ^ 21 % 128 + 128) [] (by omega) (by omega) (by omega)]
        rw [writeVarLenLoop2_cont_split 6 (d % 128 * 256 + (d / 2 ^ 7 % 128 + 128))
          (d / 2 ^ 14 % 128 + 128) _ (by omega) (by omega) (by omega)]
        rw [writeVarLenLoop2_cont_split 5 (d % 128) (d / 2 ^ 7 % 128 + 128) _
          (by omega) (by omega) (by omega)]
        rw [writeVarLenLoop2_exit_small 4 (d % 128) _ (by omega)]
        rw [if_neg h1, if_neg h2, if_neg h3]
        rw [show d / 2 ^ 21 % 128 + 128 = d / 2 ^ 21 + 128 from by omega]
        simp

theorem varBytes_length (d : ℕ) :
    1 ≤ (varBytes d).length ∧ (varBytes d).length ≤ 4 := by
  unfold varBytes
  split_ifs <;> simp

theorem varBytes_lt (d : ℕ) (hd : d < 2 ^ 28) : ∀ b ∈ varBytes d, b < 256 := by
  unfold varBytes
  split_ifs with h1 h2 h3 <;> intro b hb <;> simp only [List.mem_cons,
    List.mem_singleton, List.not_mem_nil, or_false] at hb
  · omega
  · rcases hb with rfl | rfl <;> omega
  · rcases hb with rfl | rfl | rfl <;> omega
  · rcases hb with rfl | rfl | rfl | rfl <;> omega

theorem jsAnd128_high (b : ℕ) (h1 : 128 ≤ b) (h2 : b < 256) : jsAnd (b : ℤ) 128 ≠ 0 := by
  rw [jsAnd128_coe b (by omega)]
  rw [show b / 128 % 2 * 128 = 128 from by omega]
  norm_num

theorem jsAnd128_low (b : ℕ) (h : b < 128) : ¬(jsAnd (b : ℤ) 128 ≠ 0) := by
  rw [jsAnd128_coe b (by omega)]
  rw [show b / 128 % 2 * 128 = 0 from by omega]
  norm_num

theorem readVarLenAux_read (gas : ℕ) (buf pre suf : List ℕ) (b : ℕ) (acc i : ℤ)
    (hbuf : buf = pre ++ b :: suf) (hi : i = (pre.length : ℤ)) :
    readVarLenAux buf (gas + 1) i acc =
      if jsAnd (b : ℤ) 128 ≠ 0 then
        readVarLenAux buf gas (i + 1) (jsOr (jsShl acc 7) (jsAnd (b : ℤ) 127))
      else .ok (jsOr (jsShl acc 7) (jsAnd (b : ℤ) 127), i + 1) := by
  have hgetD : buf.getD i.toNat 0 = b := by
    rw [hbuf, hi, Int.toNat_natCast]
    have := getD_append_shift pre (b :: suf) 0
    simpa using this
  simp only [readVarLenAux]
  rw [if_pos (And.intro (by rw [hi]; positivity)
    (by rw [hbuf, hi, List.length_append, List.length_cons]; push_cast; omega))]
  rw [hgetD]

theorem readVarLenAux_varBytes (d : ℕ) (hd : d < 2 ^ 28) (pre suf : List ℕ) (gas : ℕ)
    (hgas : 4 ≤ gas) :
    readVarLenAux (pre ++ varBytes d ++ suf) gas ((pre.length : ℤ)) 0 =
      .ok ((d : ℤ), (pre.length : ℤ) + ((varBytes d).length : ℤ)) := by
  have hcast0 : (0 : ℤ) = ((0 : ℕ) : ℤ) := rfl
  unfold varBytes
  by_cases h1 : d < 2 ^ 7
  · rw [if_pos h1]
    obtain ⟨g, rfl⟩ : ∃ g, gas = g + 1 := ⟨gas - 1, by omega⟩
    rw [readVarLenAux_read g _ pre suf d 0 _ (by simp) rfl]
    rw [if_neg (jsAnd128_low d (by omega))]
    rw [hcast0, varlen_acc_step 0 d (by omega) (by omega)]
    rw [show (0 * 128 + d % 128 : ℕ) = d from by omega]
    norm_num
  · by_cases h2 : d < 2 ^ 14
    · rw [if_neg h1, if_pos h2]
      obtain ⟨g, rfl⟩ : ∃ g, gas = g + 1 + 1 := ⟨gas - 2, by omega⟩
      rw [readVarLenAux_read (g + 1) _ pre ((d % 128) :: suf) (d / 2 ^ 7 + 128) 0 _
        (by simp) rfl]
      rw [if_pos (jsAnd128_high _ (by omega) (by omega))]
      rw [hcast0, varlen_acc_step 0 (d / 2 ^ 7 + 128) (by omega) (by omega)]
      rw [show (0 * 128 + (d / 2 ^ 7 + 128) % 128 : ℕ) = d / 2 ^ 7 from by omega]
      rw [readVarLenAux_read g _ (pre ++ [d / 2 ^ 7 + 128]) suf (d % 128) _
        ((pre.length : ℤ) + 1) (by simp)
        (by push_cast [List.length_append, List.length_cons, List.length_nil]; ring)]
      rw [if_neg (jsAnd128_low _ (by omega))]
      rw [varlen_acc_step (d / 2 ^ 7) (d % 128) (by omega) (by omega)]
      rw [show (d / 2 ^ 7 * 128 + d % 128 % 128 : ℕ) = d from by omega]
      norm_num
      ring
    · by_cases h3 : d < 2 ^ 21
      · rw [if_neg h1, if_neg h2, if_pos h3]
        obtain ⟨g, rfl⟩ : ∃ g, gas = g + 1 + 1 + 1 := ⟨gas - 3, by omega⟩
        rw [readVarLenAux_read (g + 1 + 1) _ pre
          ((d / 2 ^ 7 % 128 + 128) :: (d % 128 :: suf)) (d / 2 ^ 14 + 128) 0 _
          (by simp) rfl]
        rw [if_pos (jsAnd128_high _ (by omega) (by omega))]
        rw [hcast0, varlen_acc_step 0 (d / 2 ^ 14 + 128) (by omega) (by omega)]
        rw [show (0 * 128 + (d / 2 ^ 14 + 128) % 128 : ℕ) = d / 2 ^ 14 from by omega]
        rw [readVarLenAux_read (g + 1) _ (pre ++ [d / 2 ^ 14 + 128]) ((d % 128) :: suf)
          (d / 2 ^ 7 % 128 + 128) _ ((pre.length : ℤ) + 1) (by simp)
          (by push_cast [List.length_append, List.length_cons, List.length_nil]; ring)]
        rw [if_pos (jsAnd128_high _ (by omega) (by omega))]
        rw [varlen_acc_step (d / 2 ^ 14) (d / 2 ^ 7 % 128 + 128) (by omega) (by omega)]
        rw [show (d / 2 ^ 14 * 128 + (d / 2 ^ 7 % 128 + 128) % 128 : ℕ) = d / 2 ^ 7 from
          by omega]
        rw [readVarLenAux_read g _
          (pre ++ [d / 2 ^ 14 + 128, d / 2 ^ 7 % 128 + 128]) suf (d % 128) _
          ((pre.length : ℤ) + 1 + 1) (by simp)
          (by push_cast [List.length_append, List.length_cons, List.length_nil]; ring)]
        rw [if_neg (jsAnd128_low _ (by omega))]
        rw [varlen_acc_step (d / 2 ^ 7) (d % 128) (by omega) (by omega)]
        rw [show (d / 2 ^ 7 * 128 + d % 128 % 128 : ℕ) = d from by omega]
        norm_num
        ring
      · rw [if_neg h1, if_neg h2, if_neg h3]
        obtain ⟨g, rfl⟩ : ∃ g, gas = g + 1 + 1 + 1 + 1 := ⟨gas - 4, by omega⟩
        rw [readVarLenAux_read (g + 1 + 1 + 1) _ pre
          ((d / 2 ^ 14 % 128 + 128) :: ((d / 2 ^ 7 % 128 + 128) :: (d % 128 :: suf)))
          (d / 2 ^ 21 + 128) 0 _ (by simp) rfl]
        rw [if_pos (jsAnd128_high _ (by omega) (by omega))]
        rw [hcast0, varlen_acc_step 0 (d / 2 ^ 21 + 128) (by omega) (by omega)]
        rw [show (0 * 128 + (d / 2 ^ 21 + 128) % 128 : ℕ) = d / 2 ^ 21 from by omega]
        rw [readVarLenAux_read (g + 1 + 1) _ (pre ++ [d / 2 ^ 21 + 128])
          ((d / 2 ^ 7 % 128 + 128) :: (d % 128 :: suf)) (d / 2 ^ 14 % 128 + 128) _
          ((pre.length : ℤ) + 1) (by simp)
          (by push_cast [List.length_append, List.length_cons, List.length_nil]; ring)]
        rw [if_pos (jsAnd128_high _ (by omega) (by omega))]
        rw [varlen_acc_step (d / 2 ^ 21) (d / 2 ^ 14 % 128 + 128) (by omega) (by omega)]
        rw [show (d / 2 ^ 21 * 128 + (d / 2 ^ 14 % 128 + 128) % 128 : ℕ) = d / 2 ^ 14 from
          by omega]
        rw [readVarLenAux_read (g + 1) _
          (pre ++ [d / 2 ^ 21 + 128, d / 2 ^ 14 % 128 + 128]) ((d % 128) :: suf)
          (d / 2 ^ 7 % 128 + 128) _ ((pre.length : ℤ) + 1 + 1) (by simp)
          (by push_cast [List.length_append, List.length_cons, List.length_nil]; ring)]
        rw [if_pos (jsAnd128_high _ (by omega) (by omega))]
        rw [varlen_acc_step (d / 2 ^ 14) (d / 2 ^ 7 % 128 + 128) (by omega) (by omega)]
        rw [show (d / 2 ^ 14 * 128 + (d / 2 ^ 7 % 128 + 128) % 128 : ℕ) = d / 2 ^ 7 from
          by omega]
        rw [readVarLenAux_read g _
          (pre ++ [d / 2 ^ 21 + 128, d / 2 ^ 14 % 128 + 128, d / 2 ^ 7 % 128 + 128]) suf
          (d % 128) _ ((pre.length : ℤ) + 1 + 1 + 1) (by simp)
          (by push_cast [List.length_append, List.length_cons, List.length_nil]; ring)]
        rw [if_neg (jsAnd128_low _ (by omega))]
        rw [varlen_acc_step (d / 2 ^ 7) (d % 128) (by omega) (by omega)]
        rw [show (d / 2 ^ 7 * 128 + d % 128 % 128 : ℕ) = d from by omega]
        norm_num
        ring

theorem readVarLen_varBytes (d : ℕ) (hd : d < 2 ^ 28) (pre suf : List ℕ)
    (hpre : 3 ≤ pre.length) :
    readVarLen (pre ++ varBytes d ++ suf) ((pre.length : ℤ)) 0 =
      .ok ((d : ℤ), (pre.length : ℤ) + ((varBytes d).length : ℤ)) := by
  unfold readVarLen
  exact readVarLenAux_varBytes d hd pre suf _
    (by simp only [List.length_append]; omega)

theorem round48_mono {a b : ℚ} (h : a ≤ b) :
    round (a * (48 / 100)) ≤ round (b * (48 / 100)) :=
  round_le_round (by nlinarith)

theorem round48_nonneg {a : ℚ} (h : 0 ≤ a) : 0 ≤ round (a * (48 / 100)) := by
  have h0 : round ((0 : ℚ) * (48 / 100)) = 0 := by norm_num
  have := round48_mono h
  omega

theorem round48_ub {a : ℚ} (h : a ≤ 500000000) :
    round (a * (48 / 100)) ≤ 240000000 := by
  have h1 : round ((500000000 : ℚ) * (48 / 100)) = 240000000 := by
    rw [show (500000000 : ℚ) * (48 / 100) = ((240000000 : ℤ) : ℚ) from by norm_num]
    exact round_intCast 240000000
  have := round48_mono h
  omega

theorem getU8_at (buf pre suf : List ℕ) (b : ℕ) (i : ℤ)
    (hbuf : buf = pre ++ b :: suf) (hi : i = (pre.length : ℤ)) :
    getU8 buf i = .ok b := by
  subst hbuf
  subst hi
  unfold getU8
  rw [if_pos (And.intro (by positivity)
    (by rw [List.length_append, List.length_cons]; push_cast; omega))]
  rw [Int.toNat_natCast]
  have := getD_append_shift pre (b :: suf) 0
  simpa using this

theorem getU32_at (buf pre suf : List ℕ) (b0 b1 b2 b3 : ℕ) (i : ℤ)
    (hbuf : buf = pre ++ b0 :: b1 :: b2 :: b3 :: suf) (hi : i = (pre.length : ℤ)) :
    getU32 buf i = .ok (b0 * 2 ^ 24 + b1 * 2 ^ 16 + b2 * 2 ^ 8 + b3) := by
  subst hbuf
  subst hi
  unfold getU32
  rw [if_pos (And.intro (by positivity)
    (by rw [List.length_append]; push_cast; simp; omega))]
  rw [Int.toNat_natCast]
  have h0 := getD_append_shift pre (b0 :: b1 :: b2 :: b3 :: suf) 0
  have h1 := getD_append_shift pre (b0 :: b1 :: b2 :: b3 :: suf) 1
  have h2 := getD_append_shift pre (b0 :: b1 :: b2 :: b3 :: suf) 2
  have h3 := getD_append_shift pre (b0 :: b1 :: b2 :: b3 :: suf) 3
  simp only [Nat.add_zero] at h0
  rw [h0]
  rw [h1, h2, h3]
  rfl

theorem readVarLen_at (buf pre suf : List ℕ) (d : ℕ) (i : ℤ) (hd : d < 2 ^ 28)
    (hbuf : buf = pre ++ varBytes d ++ suf) (hi : i = (pre.length : ℤ))
    (hpre : 3 ≤ pre.length) :
    readVarLen buf i 0 = .ok ((d : ℤ), i + ((varBytes d).length : ℤ)) := by
  subst hbuf
  subst hi
  exact readVarLen_varBytes d hd pre suf hpre

theorem trackEventStep_note_on (buf : List ℕ) (st : TrackState) (δ o1 : ℤ)
    (noteB velB : ℕ)
    (hrv : readVarLen buf st.offset 0 = .ok (δ, o1))
    (hst : getU8 buf o1 = .ok 144)
    (hn : getU8 buf (o1 + 1) = .ok noteB)
    (hv : getU8 buf (o1 + 1 + 1) = .ok velB)
    (hvel : 0 < velB) :
    trackEventStep buf st = .ok ⟨o1 + 1 + 2, st.absoluteTime + δ,
      st.microsecondsPerQuarter, st.hasTempoMeta,
      st.events ++ [⟨.on, (noteB : ℤ), (velB : ℚ) / 127,
        ticksToMs ((st.absoluteTime + δ : ℤ) : ℚ) ((st.microsecondsPerQuarter : ℤ) : ℚ)⟩]⟩ := by
  unfold trackEventStep
  rw [hrv, except_ok_bind]
  dsimp only
  rw [hst, except_ok_bind]
  rw [if_neg (by decide), if_pos (by decide)]
  rw [hn, except_ok_bind, hv, except_ok_bind]
  rw [if_pos hvel]
  rfl

theorem trackEventStep_note_off (buf : List ℕ) (st : TrackState) (δ o1 : ℤ)
    (noteB velB : ℕ)
    (hrv : readVarLen buf st.offset 0 = .ok (δ, o1))
    (hst : getU8 buf o1 = .ok 128)
    (hn : getU8 buf (o1 + 1) = .ok noteB)
    (hv : getU8 buf (o1 + 1 + 1) = .ok velB) :
    trackEventStep buf st = .ok ⟨o1 + 1 + 2, st.absoluteTime + δ,
      st.microsecondsPerQuarter, st.hasTempoMeta,
      st.events ++ [⟨.off, (noteB : ℤ), 0,
        ticksToMs ((st.absoluteTime + δ : ℤ) : ℚ) ((st.microsecondsPerQuarter : ℤ) : ℚ)⟩]⟩ := by
  unfold trackEventStep
  rw [hrv, except_ok_bind]
  dsimp only
  rw [hst, except_ok_bind]
  rw [if_neg (by decide), if_neg (by decide), if_pos (by decide)]
  rw [hn, except_ok_bind, hv, except_ok_bind]
  rfl

theorem trackEventStep_meta_skip (buf : List ℕ) (st : TrackState) (δ o1 : ℤ)
    (mt : ℕ) (len o3 : ℤ)
    (hrv : readVarLen buf st.offset 0 = .ok (δ, o1))
    (het : getU8 buf o1 = .ok 255)
    (hmt : getU8 buf (o1 + 1) = .ok mt)
    (hlen : readVarLen buf (o1 + 1 + 1) 0 = .ok (len, o3))
    (hnot : ¬(mt = 81 ∧ len = 3)) :
    trackEventStep buf st = .ok ⟨o3 + len, st.absoluteTime + δ,
      st.microsecondsPerQuarter, st.hasTempoMeta, st.events⟩ := by
  unfold trackEventStep
  rw [hrv, except_ok_bind]
  dsimp only
  rw [het, except_ok_bind]
  rw [if_pos rfl]
  rw [hmt, except_ok_bind, hlen, except_ok_bind]
  dsimp only
  rw [if_neg hnot]
  rfl

theorem chain_time_head (a b : RecordingEvent) (l : List RecordingEvent)
    (hab : a.time = b.time)
    (h : List.Chain (fun x y => x.time ≤ y.time) a l) :
    List.Chain (fun x y => x.time ≤ y.time) b l := by
  cases l with
  | nil => exact List.Chain.nil
  | cons c l =>
      rcases List.chain_cons.mp h with ⟨h1, h2⟩
      exact List.chain_cons.mpr ⟨hab ▸ h1, h2⟩

theorem wfEvents_tail (prev : ℚ) (ev : RecordingEvent) (rest : List RecordingEvent)
    (h : wfEvents prev (ev :: rest)) : wfEvents ev.time rest := by
  obtain ⟨hchain, htime, hnote, hvel⟩ := h
  rcases List.chain_cons.mp hchain with ⟨_, h2⟩
  exact ⟨chain_time_head ev ⟨.on, 0, 0, ev.time⟩ rest rfl h2,
    fun e he => htime e (List.mem_cons_of_mem _ he),
    fun e he => hnote e (List.mem_cons_of_mem _ he),
    fun e he => hvel e (List.mem_cons_of_mem _ he)⟩

theorem wfEvents_head_time (prev : ℚ) (ev : RecordingEvent) (rest : List RecordingEvent)
    (h : wfEvents prev (ev :: rest)) : prev ≤ ev.time :=
  (List.chain_cons.mp h.1).1

theorem eventBytes_eq (ev : RecordingEvent) (A : ℤ) (dn : ℕ)
    (hd : (dn : ℤ) = round (ev.time * (48 / 100)) - A)
    (hd28 : dn < 2 ^ 28) :
    eventBytes ev A = some
      (((varBytes dn).map (fun b : ℕ => (b : ℤ))) ++
        (if ev.type = .on then [144, ev.note, max 1 (round (ev.velocity * 127))]
         else [128, ev.note, 0]),
        round (ev.time * (48 / 100))) := by
  unfold eventBytes
  dsimp only
  rw [round_sub_int, ← hd, writeVarLen_eq_varBytes dn hd28, option_some_bind]
  rw [show A + (dn : ℤ) = round (ev.time * (48 / 100)) from by omega]

theorem encodeTrackBody_chunks (evs : List RecordingEvent) :
    ∀ (prev : ℚ), 0 ≤ prev → prev ≤ 500000000 → wfEvents prev evs →
    encodeTrackBody evs (round (prev * (48 / 100))) =
      some ((trackChunks (round (prev * (48 / 100))) evs).map (fun b : ℕ => (b : ℤ))) := by
  induction evs with
  | nil => intro prev _ _ _; simp [encodeTrackBody, trackChunks]
  | cons ev rest ih =>
      intro prev h0 h1 hwf
      have hptime := wfEvents_head_time prev ev rest hwf
      have htime := hwf.2.1 ev (List.mem_cons_self _ _)
      have hnote := hwf.2.2.1 ev (List.mem_cons_self _ _)
      have hwl := wfEvents_tail prev ev rest hwf
      have hAT : round (prev * (48 / 100)) ≤ round (ev.time * (48 / 100)) :=
        round48_mono hptime
      have hub := round48_ub htime.2
      have hA0 := round48_nonneg h0
      unfold encodeTrackBody
      rw [eventBytes_eq ev _ ((round (ev.time * (48 / 100)) -
          round (prev * (48 / 100))).toNat)
        (Int.toNat_of_nonneg (by omega)) (by omega), option_some_bind]
      dsimp only
      rw [ih ev.time htime.1 htime.2 hwl, option_some_bind]
      simp only [trackChunks, eventChunk, List.map_append]
      by_cases htype : ev.type = .on
      · simp only [htype, if_true, List.map_cons, List.map_nil]
        rw [Int.toNat_of_nonneg hnote.1,
          Int.toNat_of_nonneg (le_trans zero_le_one (le_max_left _ _))]
        norm_num
      · simp only [htype, if_false, List.map_cons, List.map_nil]
        rw [Int.toNat_of_nonneg hnote.1]
        norm_num

theorem trackChunks_bytes (evs : List RecordingEvent) :
    ∀ (prev : ℚ), 0 ≤ prev → prev ≤ 500000000 → wfEvents prev evs →
    ∀ b ∈ trackChunks (round (prev * (48 / 100))) evs, b < 256 := by
  induction evs with
  | nil => intro prev _ _ _ b hb; simp [trackChunks] at hb
  | cons ev rest ih =>
      intro prev h0 h1 hwf b hb
      have hptime := wfEvents_head_time prev ev rest hwf
      have htime := hwf.2.1 ev (List.mem_cons_self _ _)
      have hnote := hwf.2.2.1 ev (List.mem_cons_self _ _)
      have hvel := hwf.2.2.2 ev (List.mem_cons_self _ _)
      have hwl := wfEvents_tail prev ev rest hwf
      have hAT : round (prev * (48 / 100)) ≤ round (ev.time * (48 / 100)) :=
        round48_mono hptime
      have hub := round48_ub htime.2
      have hA0 := round48_nonneg h0
      simp only [trackChunks, eventChunk, List.append_assoc, List.mem_append] at hb
      rcases hb with hb | hb | hb
      · exact varBytes_lt _ (by omega) b hb
      · by_cases htype : ev.type = .on
        · rw [if_pos htype] at hb
          have hv127 : round (ev.velocity * 127) ≤ 127 := by
            have h2 := (hvel htype).2
            have h3 : round (ev.velocity * 127) ≤ round ((127 : ℤ) : ℚ) :=
              round_le_round (by push_cast; nlinarith)
            rw [round_intCast] at h3
            exact h3
          have hmax : max 1 (round (ev.velocity * 127)) ≤ 127 :=
            max_le (by norm_num) hv127
          simp only [List.mem_cons, List.not_mem_nil, or_false] at hb
          rcases hb with rfl | rfl | rfl
          · omega
          · omega
          · omega
        · rw [if_neg htype] at hb
          simp only [List.mem_cons, List.not_mem_nil, or_false] at hb
          rcases hb with rfl | rfl | rfl
          · omega
          · omega
          · omega
      · exact ih ev.time htime.1 htime.2 hwl b hb

theorem trackChunks_length_le (evs : List RecordingEvent) :
    ∀ A : ℤ, (trackChunks A evs).length ≤ 7 * evs.length := by
  induction evs with
  | nil => intro A; simp [trackChunks]
  | cons ev rest ih =>
      intro A
      simp only [trackChunks, eventChunk, List.length_append, List.length_cons]
      have h1 := (varBytes_length ((round (ev.time * (48 / 100)) - A).toNat)).2
      have h2 := ih (round (ev.time * (48 / 100)))
      have h3 : (if ev.type = .on
          then [144, ev.note.toNat, (max 1 (round (ev.velocity * 127))).toNat]
          else [128, ev.note.toNat, 0]).length = 3 := by
        split_ifs <;> rfl
      rw [h3]
      omega

theorem trackLoop_succ (buf : List ℕ) (E : ℤ) (f : ℕ) (st : TrackState) :
    trackLoop buf E (f + 1) st =
      if st.offset < E then trackEventStep buf st >>= trackLoop buf E f
      else .ok st := rfl

theorem evtype_cases (t : EvType) : t = .on ∨ t = .off := by
  cases t
  · exact .inl rfl
  · exact .inr rfl

theorem trackChunks_parse (evs : List RecordingEvent) :
    ∀ (prev : ℚ) (pre tail : List ℕ) (decoded : List RecordingEvent),
    0 ≤ prev → prev ≤ 500000000 → wfEvents prev evs → 3 ≤ pre.length →
    ∃ Afin : ℤ,
    trackLoop (pre ++ trackChunks (round (prev * (48 / 100))) evs ++
        (0 :: 255 :: 47 :: 0 :: tail))
      ((pre.length : ℤ) + ((trackChunks (round (prev * (48 / 100))) evs).length : ℤ) + 4)
      (evs.length + 2)
      ⟨(pre.length : ℤ), round (prev * (48 / 100)), 1000000, false, decoded⟩ =
      .ok ⟨(pre.length : ℤ) +
          ((trackChunks (round (prev * (48 / 100))) evs).length : ℤ) + 4,
        Afin, 1000000, false, decoded ++ evs.map decodedOf⟩ := by
  induction evs with
  | nil =>
      intro prev pre tail decoded h0 h1 hwf hpre
      refine ⟨round (prev * (48 / 100)) + 0, ?_⟩
      have hrv : readVarLen (pre ++ 0 :: 255 :: 47 :: 0 :: tail) ((pre.length : ℤ)) 0 =
          .ok (0, (pre.length : ℤ) + 1) := by
        have h := readVarLen_varBytes 0 (by norm_num) pre (255 :: 47 :: 0 :: tail) hpre
        rw [show varBytes 0 = [0] from rfl] at h
        simpa using h
      have het : getU8 (pre ++ 0 :: 255 :: 47 :: 0 :: tail) ((pre.length : ℤ) + 1) =
          .ok 255 :=
        getU8_at _ (pre ++ [0]) (47 :: 0 :: tail) 255 _ (by simp)
          (by push_cast [List.length_append, List.length_cons, List.length_nil]; ring)
      have hmt : getU8 (pre ++ 0 :: 255 :: 47 :: 0 :: tail) ((pre.length : ℤ) + 1 + 1) =
          .ok 47 :=
        getU8_at _ (pre ++ [0, 255]) (0 :: tail) 47 _ (by simp)
          (by push_cast [List.length_append, List.length_cons, List.length_nil]; ring)
      have hlen : readVarLen (pre ++ 0 :: 255 :: 47 :: 0 :: tail)
          ((pre.length : ℤ) + 1 + 1 + 1) 0 =
          .ok (0, (pre.length : ℤ) + 1 + 1 + 1 + 1) := by
        have h := readVarLen_at (pre ++ 0 :: 255 :: 47 :: 0 :: tail) (pre ++ [0, 255, 47])
          tail 0 ((pre.length : ℤ) + 1 + 1 + 1) (by norm_num)
          (by rw [show varBytes 0 = [0] from rfl]; simp)
          (by push_cast [List.length_append, List.length_cons, List.length_nil]; ring)
          (by simp only [List.length_append]; omega)
        rw [show varBytes 0 = [0] from rfl] at h
        simpa using h
      simp only [trackChunks, List.append_nil, List.length_nil, Nat.cast_zero,
        add_zero, List.map_nil]
      rw [show (0 : ℕ) + 2 = 1 + 1 from rfl]
      rw [trackLoop_succ, if_pos (by dsimp only; omega)]
      rw [trackEventStep_meta_skip _ _ 0 ((pre.length : ℤ) + 1) 47 0
        ((pre.length : ℤ) + 1 + 1 + 1 + 1) hrv het hmt hlen (by norm_num),
        except_ok_bind]
      rw [trackLoop_succ, if_neg (by dsimp only; omega)]
      simp only [Except.ok.injEq, TrackState.mk.injEq]
      exact ⟨by ring, by ring, trivial, trivial, trivial⟩
  | cons ev rest ih =>
      intro prev pre tail decoded h0 h1 hwf hpre
      have hptime := wfEvents_head_time prev ev rest hwf
      have htime := hwf.2.1 ev (List.mem_cons_self _ _)
      have hnote := hwf.2.2.1 ev (List.mem_cons_self _ _)
      have hvel := hwf.2.2.2 ev (List.mem_cons_self _ _)
      have hwl := wfEvents_tail prev ev rest hwf
      have hAT : round (prev * (48 / 100)) ≤ round (ev.time * (48 / 100)) :=
        round48_mono hptime
      have hA0 := round48_nonneg h0
      have hub := round48_ub htime.2
      have hdn : (((round (ev.time * (48 / 100)) -
          round (prev * (48 / 100))).toNat : ℕ) : ℤ) =
          round (ev.time * (48 / 100)) - round (prev * (48 / 100)) :=
        Int.toNat_of_nonneg (by omega)
      have hdn28 : (round (ev.time * (48 / 100)) -
          round (prev * (48 / 100))).toNat < 2 ^ 28 := by omega
      have hAdn : round (prev * (48 / 100)) +
          (((round (ev.time * (48 / 100)) -
            round (prev * (48 / 100))).toNat : ℕ) : ℤ) =
          round (ev.time * (48 / 100)) := by omega
      obtain ⟨Afin, hIH⟩ := ih ev.time (pre ++ eventChunk (round (prev * (48 / 100))) ev)
        tail (decoded ++ [decodedOf ev]) htime.1 htime.2 hwl
        (by simp only [List.length_append]; omega)
      refine ⟨Afin, ?_⟩
      rcases evtype_cases ev.type with htyp | htyp
      ·
          have hvBpos : 0 < (max 1 (round (ev.velocity * 127))).toNat := by
            have h1 : (1 : ℤ) ≤ max 1 (round (ev.velocity * 127)) := le_max_left _ _
            omega
          have hrv : readVarLen (pre ++ (varBytes ((round (ev.time * (48 / 100)) -
                round (prev * (48 / 100))).toNat) ++
                (144 :: ev.note.toNat :: (max 1 (round (ev.velocity * 127))).toNat ::
                  (trackChunks (round (ev.time * (48 / 100))) rest ++
                    (0 :: 255 :: 47 :: 0 :: tail)))))
              ((pre.length : ℤ)) 0 =
              .ok ((((round (ev.time * (48 / 100)) -
                round (prev * (48 / 100))).toNat : ℕ) : ℤ),
                (pre.length : ℤ) + ((varBytes ((round (ev.time * (48 / 100)) -
                  round (prev * (48 / 100))).toNat)).length : ℤ)) :=
            readVarLen_at _ pre
              (144 :: ev.note.toNat :: (max 1 (round (ev.velocity * 127))).toNat ::
                (trackChunks (round (ev.time * (48 / 100))) rest ++
                  (0 :: 255 :: 47 :: 0 :: tail)))
              _ _ hdn28 (by simp [List.append_assoc]) rfl hpre
          have het : getU8 (pre ++ (varBytes ((round (ev.time * (48 / 100)) -
                round (prev * (48 / 100))).toNat) ++
                (144 :: ev.note.toNat :: (max 1 (round (ev.velocity * 127))).toNat ::
                  (trackChunks (round (ev.time * (48 / 100))) rest ++
                    (0 :: 255 :: 47 :: 0 :: tail)))))
              ((pre.length : ℤ) + ((varBytes ((round (ev.time * (48 / 100)) -
                round (prev * (48 / 100))).toNat)).length : ℤ)) = .ok 144 :=
            getU8_at _ (pre ++ varBytes ((round (ev.time * (48 / 100)) -
                round (prev * (48 / 100))).toNat))
              (ev.note.toNat :: (max 1 (round (ev.velocity * 127))).toNat ::
                (trackChunks (round (ev.time * (48 / 100))) rest ++
                  (0 :: 255 :: 47 :: 0 :: tail))) 144 _
              (by simp [List.append_assoc])
              (by push_cast [List.length_append]; ring)
          have hn : getU8 (pre ++ (varBytes ((round (ev.time * (48 / 100)) -
                round (prev * (48 / 100))).toNat) ++
                (144 :: ev.note.toNat :: (max 1 (round (ev.velocity * 127))).toNat ::
                  (trackChunks (round (ev.time * (48 / 100))) rest ++
                    (0 :: 255 :: 47 :: 0 :: tail)))))
              ((pre.length : ℤ) + ((varBytes ((round (ev.time * (48 / 100)) -
                round (prev * (48 / 100))).toNat)).length : ℤ) + 1) =
              .ok ev.note.toNat :=
            getU8_at _ (pre ++ varBytes ((round (ev.time * (48 / 100)) -
                round (prev * (48 / 100))).toNat) ++ [144])
              ((max 1 (round (ev.velocity * 127))).toNat ::
                (trackChunks (round (ev.time * (48 / 100))) rest ++
                  (0 :: 255 :: 47 :: 0 :: tail))) ev.note.toNat _
              (by simp [List.append_assoc])
              (by push_cast [List.length_append, List.length_cons, List.length_nil]; ring)
          have hv : getU8 (pre ++ (varBytes ((round (ev.time * (48 / 100)) -
                round (prev * (48 / 100))).toNat) ++
                (144 :: ev.note.toNat :: (max 1 (round (ev.velocity * 127))).toNat ::
                  (trackChunks (round (ev.time * (48 / 100))) rest ++
                    (0 :: 255 :: 47 :: 0 :: tail)))))
              ((pre.length : ℤ) + ((varBytes ((round (ev.time * (48 / 100)) -
                round (prev * (48 / 100))).toNat)).length : ℤ) + 1 + 1) =
              .ok (max 1 (round (ev.velocity * 127))).toNat :=
            getU8_at _ (pre ++ varBytes ((round (ev.time * (48 / 100)) -
                round (prev * (48 / 100))).toNat) ++ [144, ev.note.toNat])
              (trackChunks (round (ev.time * (48 / 100))) rest ++
                (0 :: 255 :: 47 :: 0 :: tail))
              (max 1 (round (ev.velocity * 127))).toNat _
              (by simp [List.append_assoc])
              (by push_cast [List.length_append, List.length_cons, List.length_nil]; ring)
          simp only [trackChunks, eventChunk, htyp, eq_self_iff_true, if_true,
            List.length_cons, List.append_assoc, List.cons_append,
            List.singleton_append, List.nil_append, List.map_cons, decodedOf]
          rw [show rest.length + 1 + 2 = rest.length + 2 + 1 from by omega]
          rw [trackLoop_succ, if_pos (by dsimp only; omega)]
          rw [trackEventStep_note_on _ _ _ _ _ _ hrv het hn hv hvBpos, except_ok_bind]
          dsimp only
          rw [hAdn]
          simp only [trackChunks, eventChunk, htyp, eq_self_iff_true, if_true,
            List.length_cons, List.append_assoc, List.cons_append,
            List.singleton_append, List.nil_append, List.map_cons, decodedOf] at hIH
          push_cast [List.length_append, List.length_cons, List.length_nil] at hIH ⊢
          ring_nf at hIH ⊢
          exact hIH
      ·
          have hrv : readVarLen (pre ++ (varBytes ((round (ev.time * (48 / 100)) -
                round (prev * (48 / 100))).toNat) ++
                (128 :: ev.note.toNat :: 0 ::
                  (trackChunks (round (ev.time * (48 / 100))) rest ++
                    (0 :: 255 :: 47 :: 0 :: tail)))))
              ((pre.length : ℤ)) 0 =
              .ok ((((round (ev.time * (48 / 100)) -
                round (prev * (48 / 100))).toNat : ℕ) : ℤ),
                (pre.length : ℤ) + ((varBytes ((round (ev.time * (48 / 100)) -
                  round (prev * (48 / 100))).toNat)).length : ℤ)) :=
            readVarLen_at _ pre
              (128 :: ev.note.toNat :: 0 ::
                (trackChunks (round (ev.time * (48 / 100))) rest ++
                  (0 :: 255 :: 47 :: 0 :: tail)))
              _ _ hdn28 (by simp [List.append_assoc]) rfl hpre
          have het : getU8 (pre ++ (varBytes ((round (ev.time * (48 / 100)) -
                round (prev * (48 / 100))).toNat) ++
                (128 :: ev.note.toNat :: 0 ::
                  (trackChunks (round (ev.time * (48 / 100))) rest ++
                    (0 :: 255 :: 47 :: 0 :: tail)))))
              ((pre.length : ℤ) + ((varBytes ((round (ev.time * (48 / 100)) -
                round (prev * (48 / 100))).toNat)).length : ℤ)) = .ok 128 :=
            getU8_at _ (pre ++ varBytes ((round (ev.time * (48 / 100)) -
                round (prev * (48 / 100))).toNat))
              (ev.note.toNat :: 0 ::
                (trackChunks (round (ev.time * (48 / 100))) rest ++
                  (0 :: 255 :: 47 :: 0 :: tail))) 128 _
              (by simp [List.append_assoc])
              (by push_cast [List.length_append]; ring)
          have hn : getU8 (pre ++ (varBytes ((round (ev.time * (48 / 100)) -
                round (prev * (48 / 100))).toNat) ++
                (128 :: ev.note.toNat :: 0 ::
                  (trackChunks (round (ev.time * (48 / 100))) rest ++
                    (0 :: 255 :: 47 :: 0 :: tail)))))
              ((pre.length : ℤ) + ((varBytes ((round (ev.time * (48 / 100)) -
                round (prev * (48 / 100))).toNat)).length : ℤ) + 1) =
              .ok ev.note.toNat :=
            getU8_at _ (pre ++ varBytes ((round (ev.time * (48 / 100)) -
                round (prev * (48 / 100))).toNat) ++ [128])
              (0 :: (trackChunks (round (ev.time * (48 / 100))) rest ++
                (0 :: 255 :: 47 :: 0 :: tail))) ev.note.toNat _
              (by simp [List.append_assoc])
              (by push_cast [List.length_append, List.length_cons, List.length_nil]; ring)
          have hv : getU8 (pre ++ (varBytes ((round (ev.time * (48 / 100)) -
                round (prev * (48 / 100))).toNat) ++
                (128 :: ev.note.toNat :: 0 ::
                  (trackChunks (round (ev.time * (48 / 100))) rest ++
                    (0 :: 255 :: 47 :: 0 :: tail)))))
              ((pre.length : ℤ) + ((varBytes ((round (ev.time * (48 / 100)) -
                round (prev * (48 / 100))).toNat)).length : ℤ) + 1 + 1) =
              .ok 0 :=
            getU8_at _ (pre ++ varBytes ((round (ev.time * (48 / 100)) -
                round (prev * (48 / 100))).toNat) ++ [128, ev.note.toNat])
              (trackChunks (round (ev.time * (48 / 100))) rest ++
                (0 :: 255 :: 47 :: 0 :: tail)) 0 _
              (by simp [List.append_assoc])
              (by push_cast [List.length_append, List.length_cons, List.length_nil]; ring)
          have hoffne : ¬(EvType.off = EvType.on) := by intro h; cases h
          simp only [trackChunks, eventChunk, htyp, hoffne, eq_self_iff_true, if_true,
            if_false, ite_false, List.length_cons, List.append_assoc, List.cons_append,
            List.singleton_append, List.nil_append, List.map_cons, decodedOf]
          rw [show rest.length + 1 + 2 = rest.length + 2 + 1 from by omega]
          rw [trackLoop_succ, if_pos (by dsimp only; omega)]
          rw [trackEventStep_note_off _ _ _ _ _ _ hrv het hn hv, except_ok_bind]
          dsimp only
          rw [hAdn]
          simp only [trackChunks, eventChunk, htyp, hoffne, eq_self_iff_true, if_true,
            if_false, ite_false, List.length_cons, List.append_assoc, List.cons_append,
            List.singleton_append, List.nil_append, List.map_cons, decodedOf] at hIH
          push_cast [List.length_append, List.length_cons, List.length_nil] at hIH ⊢
          ring_nf at hIH ⊢
          exact hIH

theorem insertByTime_front (e : RecordingEvent) (l : List RecordingEvent)
    (h : ∀ f ∈ l.head?, ¬(f.time < e.time)) : insertByTime e l = e :: l := by
  cases l with
  | nil => rfl
  | cons f rest =>
      simp only [insertByTime]
      rw [if_neg (h f rfl)]

theorem sortByTime_sorted (l : List RecordingEvent)
    (h : List.Chain' (fun a b => a.time ≤ b.time) l) : sortByTime l = l := by
  induction l with
  | nil => rfl
  | cons e rest ihl =>
      have htail : List.Chain' (fun a b => a.time ≤ b.time) rest := h.tail
      simp only [sortByTime]
      rw [ihl htail]
      apply insertByTime_front
      intro f hf
      cases rest with
      | nil => simp at hf
      | cons g r =>
          simp only [List.head?_cons, Option.mem_def, Option.some.injEq] at hf
          subst hf
          exact not_lt.mpr (List.chain'_cons.mp h).1

theorem decodedOf_time (e : RecordingEvent) :
    (decodedOf e).time = ((round (e.time * (48 / 100)) : ℤ) : ℚ) * (25 / 12) := by
  unfold decodedOf ticksToMs msPerTickFromTempo TICKS_PER_QUARTER
  norm_num

theorem decodedOf_time_mono {a b : RecordingEvent} (h : a.time ≤ b.time) :
    (decodedOf a).time ≤ (decodedOf b).time := by
  rw [decodedOf_time, decodedOf_time]
  have hr : round (a.time * (48 / 100)) ≤ round (b.time * (48 / 100)) := round48_mono h
  have : ((round (a.time * (48 / 100)) : ℤ) : ℚ) ≤ ((round (b.time * (48 / 100)) : ℤ) : ℚ) := by
    exact_mod_cast hr
  nlinarith

theorem chain'_map_decodedOf (l : List RecordingEvent)
    (h : List.Chain' (fun a b => a.time ≤ b.time) l) :
    List.Chain' (fun a b => a.time ≤ b.time) (l.map decodedOf) := by
  rw [List.chain'_map]
  exact h.imp (fun a b hab => decodedOf_time_mono hab)

theorem map_mod_cast_id (l : List ℕ) (h : ∀ b ∈ l, b < 256) :
    (l.map (fun b : ℕ => (b : ℤ))).map (fun z => (z % 256).toNat) = l := by
  induction l with
  | nil => rfl
  | cons b rest ihl =>
      simp only [List.map_cons, List.cons.injEq]
      constructor
      · have hb := h b (List.mem_cons_self _ _)
        omega
      · exact ihl (fun x hx => h x (List.mem_cons_of_mem _ hx))

theorem lenByte_eq (L : ℕ) (k : ℕ) (hL : L < 2 ^ 32) :
    jsAnd (jsShrU (L : ℤ) k) 255 = ((L / 2 ^ k % 256 : ℕ) : ℤ) := by
  unfold jsShrU
  rw [show toUint32 (L : ℤ) = L from toUint32_coe L hL]
  exact jsAnd255_coe (L / 2 ^ k) (by
    have : L / 2 ^ k ≤ L := Nat.div_le_self _ _
    omega)

theorem encodeMidi_chunks (events : List RecordingEvent)
    (hwf : wfEvents 0 events) (hcount : events.length ≤ 100000000) :
    encodeMidi events = some (encodedBytes events) := by
  have h00 : round ((0 : ℚ) * (48 / 100)) = (0 : ℤ) := by norm_num
  have hENC := encodeTrackBody_chunks events 0 le_rfl (by norm_num) hwf
  rw [h00] at hENC
  have hBY : ∀ b ∈ trackChunks 0 events, b < 256 := by
    have h := trackChunks_bytes events 0 le_rfl (by norm_num) hwf
    rwa [h00] at h
  have hL32 : (trackChunks 0 events).length + 4 < 2 ^ 32 := by
    have := trackChunks_length_le events 0
    omega
  unfold encodeMidi
  rw [hENC, option_some_bind]
  dsimp only
  rw [show (((trackChunks 0 events).map (fun b : ℕ => (b : ℤ)) ++
      [(0 : ℤ), 255, 47, 0]).length : ℤ) =
      (((trackChunks 0 events).length + 4 : ℕ) : ℤ) from by
    simp [List.length_append]]
  rw [lenByte_eq _ 24 hL32, lenByte_eq _ 16 hL32, lenByte_eq _ 8 hL32,
    jsAnd255_coe _ hL32]
  rw [show ([77, 84, 104, 100, 0, 0, 0, 6, 0, 0, 0, 1, 1, 224] ++
      ([(77 : ℤ), 84, 114, 107,
        ((((trackChunks 0 events).length + 4) / 2 ^ 24 % 256 : ℕ) : ℤ),
        ((((trackChunks 0 events).length + 4) / 2 ^ 16 % 256 : ℕ) : ℤ),
        ((((trackChunks 0 events).length + 4) / 2 ^ 8 % 256 : ℕ) : ℤ),
        ((((trackChunks 0 events).length + 4) % 256 : ℕ) : ℤ)] ++
        ((trackChunks 0 events).map (fun b : ℕ => (b : ℤ)) ++ [(0 : ℤ), 255, 47, 0]))) =
      (encodedBytes events).map (fun b : ℕ => (b : ℤ)) from by
    simp only [encodedBytes, List.map_append, List.map_cons, List.map_nil,
      List.append_assoc, List.cons_append, List.nil_append]
    norm_num]
  rw [map_mod_cast_id]
  intro b hb
  unfold encodedBytes at hb
  rcases List.mem_append.mp hb with h1 | h1
  · rcases List.mem_append.mp h1 with h2 | h2
    · rcases List.mem_append.mp h2 with h3 | h3
      · simp only [List.mem_cons, List.not_mem_nil, or_false] at h3
        rcases h3 with rfl | rfl | rfl | rfl | rfl | rfl | rfl | rfl | rfl | rfl |
          rfl | rfl | rfl | rfl <;> omega
      · simp only [List.mem_cons, List.not_mem_nil, or_false] at h3
        rcases h3 with rfl | rfl | rfl | rfl | rfl | rfl | rfl | rfl <;> omega
    · exact hBY b h2
  · simp only [List.mem_cons, List.not_mem_nil, or_false] at h1
    rcases h1 with rfl | rfl | rfl | rfl <;> omega

theorem wfEvents_chain' (prev : ℚ) (evs : List RecordingEvent) (h : wfEvents prev evs) :
    List.Chain' (fun a b => a.time ≤ b.time) evs := by
  cases evs with
  | nil => exact List.chain'_nil
  | cons e rest => exact (List.chain_cons.mp h.1).2

theorem decode_encoded (events : List RecordingEvent) (hwf : wfEvents 0 events)
    (hcount : events.length ≤ 100000000) :
    decodeMidiToEvents (encodedBytes events) (events.length + 2) =
      .ok ⟨events.map decodedOf, false, 1000000⟩ := by
  have h00 : round ((0 : ℚ) * (48 / 100)) = (0 : ℤ) := by norm_num
  have hL32 : (trackChunks 0 events).length + 4 < 2 ^ 32 := by
    have := trackChunks_length_le events 0
    omega
  obtain ⟨Afin, hpar⟩ := trackChunks_parse events 0
    ([77, 84, 104, 100, 0, 0, 0, 6, 0, 0, 0, 1, 1, 224] ++
      [77, 84, 114, 107,
        ((trackChunks 0 events).length + 4) / 2 ^ 24 % 256,
        ((trackChunks 0 events).length + 4) / 2 ^ 16 % 256,
        ((trackChunks 0 events).length + 4) / 2 ^ 8 % 256,
        ((trackChunks 0 events).length + 4) % 256]) [] []
    le_rfl (by norm_num) hwf (by norm_num [List.length_append])
  rw [h00] at hpar
  rw [show ((([77, 84, 104, 100, 0, 0, 0, 6, 0, 0, 0, 1, 1, 224] ++
      [77, 84, 114, 107,
        ((trackChunks 0 events).length + 4) / 2 ^ 24 % 256,
        ((trackChunks 0 events).length + 4) / 2 ^ 16 % 256,
        ((trackChunks 0 events).length + 4) / 2 ^ 8 % 256,
        ((trackChunks 0 events).length + 4) % 256] : List ℕ).length : ℕ) : ℤ) =
    (((14 : ℕ) : ℤ) + 8 : ℤ) from by norm_num [List.length_append]] at hpar
  rw [show ((((14 : ℕ) : ℤ) + 8 : ℤ) + ((trackChunks 0 events).length : ℤ) + 4 : ℤ) =
    (((14 : ℕ) : ℤ) + 8 + (((trackChunks 0 events).length + 4 : ℕ) : ℤ) : ℤ) from by
      push_cast; ring] at hpar
  rw [List.nil_append] at hpar
  unfold decodeMidiToEvents
  have hu0 : getU32 (encodedBytes events) 0 = .ok 0x4D546864 := by
    have h := getU32_at (encodedBytes events)
      []
      ([0, 0, 0, 6, 0, 0, 0, 1, 1, 224] ++
        [77, 84, 114, 107,
          ((trackChunks 0 events).length + 4) / 2 ^ 24 % 256,
          ((trackChunks 0 events).length + 4) / 2 ^ 16 % 256,
          ((trackChunks 0 events).length + 4) / 2 ^ 8 % 256,
          ((trackChunks 0 events).length + 4) % 256] ++
        trackChunks 0 events ++ [0, 255, 47, 0])
      77 84 104 100 0 (by simp [encodedBytes]) (by simp)
    rw [show (77 * 2 ^ 24 + 84 * 2 ^ 16 + 104 * 2 ^ 8 + 100 : ℕ) = 0x4D546864 from by
      norm_num] at h
    exact h
  rw [hu0, except_ok_bind]
  rw [if_pos rfl]
  unfold scanForTrack
  have hNL : (encodedBytes events).length = (trackChunks 0 events).length + 26 := by
    simp [encodedBytes]
  rw [hNL]
  simp only [scanForTrackAux]
  rw [if_pos (by rw [hNL]; omega)]
  have hu14 : getU32 (encodedBytes events) (((14 : ℕ) : ℤ)) = .ok 0x4D54726B := by
    have h := getU32_at (encodedBytes events)
      [77, 84, 104, 100, 0, 0, 0, 6, 0, 0, 0, 1, 1, 224]
      ([((trackChunks 0 events).length + 4) / 2 ^ 24 % 256,
        ((trackChunks 0 events).length + 4) / 2 ^ 16 % 256,
        ((trackChunks 0 events).length + 4) / 2 ^ 8 % 256,
        ((trackChunks 0 events).length + 4) % 256] ++
        trackChunks 0 events ++ [0, 255, 47, 0])
      77 84 114 107 (((14 : ℕ) : ℤ)) (by simp [encodedBytes]) (by simp)
    rw [show (77 * 2 ^ 24 + 84 * 2 ^ 16 + 114 * 2 ^ 8 + 107 : ℕ) = 0x4D54726B from by
      norm_num] at h
    exact h
  rw [hu14, except_ok_bind]
  rw [if_pos rfl]
  have hu18 : getU32 (encodedBytes events) ((((14 : ℕ) : ℤ)) + 4) =
      .ok ((trackChunks 0 events).length + 4) := by
    have h := getU32_at (encodedBytes events)
      ([77, 84, 104, 100, 0, 0, 0, 6, 0, 0, 0, 1, 1, 224] ++ [77, 84, 114, 107])
      (trackChunks 0 events ++ [0, 255, 47, 0])
      (((trackChunks 0 events).length + 4) / 2 ^ 24 % 256)
      (((trackChunks 0 events).length + 4) / 2 ^ 16 % 256)
      (((trackChunks 0 events).length + 4) / 2 ^ 8 % 256)
      (((trackChunks 0 events).length + 4) % 256)
      ((((14 : ℕ) : ℤ)) + 4) (by simp [encodedBytes])
      (by norm_num [List.length_append])
    rw [show ((trackChunks 0 events).length + 4) / 2 ^ 24 % 256 * 2 ^ 24 +
        ((trackChunks 0 events).length + 4) / 2 ^ 16 % 256 * 2 ^ 16 +
        ((trackChunks 0 events).length + 4) / 2 ^ 8 % 256 * 2 ^ 8 +
        ((trackChunks 0 events).length + 4) % 256 =
        (trackChunks 0 events).length + 4 from by omega] at h
    exact h
  rw [hu18, except_ok_bind]
  rw [show ([77, 84, 104, 100, 0, 0, 0, 6, 0, 0, 0, 1, 1, 224] ++
      [77, 84, 114, 107,
        ((trackChunks 0 events).length + 4) / 2 ^ 24 % 256,
        ((trackChunks 0 events).length + 4) / 2 ^ 16 % 256,
        ((trackChunks 0 events).length + 4) / 2 ^ 8 % 256,
        ((trackChunks 0 events).length + 4) % 256] ++
      trackChunks 0 events ++ [0, 255, 47, 0]) = encodedBytes events from rfl] at hpar
  rw [hpar, except_ok_bind]
  rw [show (pure (List.map decodedOf events, false, 1000000) :
      Except DecodeErr (List RecordingEvent × Bool × ℤ)) =
    .ok (List.map decodedOf events, false, 1000000) from rfl, except_ok_bind]
  dsimp only
  rw [sortByTime_sorted _ (chain'_map_decodedOf events (wfEvents_chain' 0 events hwf))]
  rfl

theorem decodedOf_note (e : RecordingEvent) (h : 0 ≤ e.note) :
    (decodedOf e).note = e.note := by
  unfold decodedOf
  exact Int.toNat_of_nonneg h

theorem decodedOf_time_close (e : RecordingEvent) :
    |(decodedOf e).time - e.time| ≤ 25 / 12 := by
  rw [decodedOf_time]
  have h1 := abs_sub_round (e.time * (48 / 100))
  rw [abs_sub_comm] at h1
  have h2 : ((round (e.time * (48 / 100)) : ℤ) : ℚ) * (25 / 12) - e.time =
      (25 / 12) * (((round (e.time * (48 / 100)) : ℤ) : ℚ) - e.time * (48 / 100)) := by
    ring
  rw [h2, abs_mul, abs_of_nonneg (by norm_num : (0 : ℚ) ≤ 25 / 12)]
  linarith [h1]

theorem decodedOf_vel_close (e : RecordingEvent) (htype : e.type = .on)
    (h0 : 0 ≤ e.velocity) (h1 : e.velocity ≤ 1) :
    |(decodedOf e).velocity - e.velocity| ≤ 1 / 127 := by
  unfold decodedOf
  rw [if_pos htype]
  have hr := abs_sub_round (e.velocity * 127)
  rw [abs_sub_comm] at hr
  have hm0 : (0 : ℤ) ≤ max 1 (round (e.velocity * 127)) :=
    le_trans zero_le_one (le_max_left _ _)
  have hcast : (((max 1 (round (e.velocity * 127))).toNat : ℕ) : ℚ) =
      ((max 1 (round (e.velocity * 127)) : ℤ) : ℚ) := by
    exact_mod_cast congrArg (fun z : ℤ => (z : ℚ)) (Int.toNat_of_nonneg hm0)
  rw [hcast]
  by_cases hc : 1 ≤ round (e.velocity * 127)
  · rw [max_eq_right hc]
    rw [abs_le] at hr ⊢
    constructor <;> [linarith [hr.1]; linarith [hr.2]]
  · push_neg at hc
    rw [max_eq_left (by omega)]
    have hrle : ((round (e.velocity * 127) : ℤ) : ℚ) ≤ 0 := by
      exact_mod_cast (by omega : round (e.velocity * 127) ≤ 0)
    rw [abs_le] at hr ⊢
    constructor
    · push_cast
      linarith [hr.1, hrle]
    · push_cast
      linarith [h0]

/-- C1 (amended): for any list of well-formed on/off note events with
non-decreasing times in [0, 5*10^8] milliseconds, notes in 0..127, note-on
velocities in [0, 1] and at most 10^8 events, `encodeMidi` terminates and
decoding its byte stream reproduces the events in order: the decoded list is
the image of the input under `decodedOf`, which preserves kind and note
exactly, lands every time within one tick (25/12 ms) of the original, and
every note-on velocity within 1/127 of the original. -/
theorem encode_decode_roundtrip (events : List RecordingEvent)
    (hchain : List.Chain' (fun a b => a.time ≤ b.time) events)
    (htimes : ∀ e ∈ events, 0 ≤ e.time ∧ e.time ≤ 500000000)
    (hnotes : ∀ e ∈ events, 0 ≤ e.note ∧ e.note ≤ 127)
    (hvels : ∀ e ∈ events, e.type = .on → 0 ≤ e.velocity ∧ e.velocity ≤ 1)
    (hcount : events.length ≤ 100000000) :
    ∃ bytes : List ℕ,
      encodeMidi events = some bytes ∧
      getRecordingEvents bytes (events.length + 2) =
        some ⟨events.map decodedOf, false, 1000000⟩ ∧
      ∀ e ∈ events,
        (decodedOf e).type = e.type ∧
        (decodedOf e).note = e.note ∧
        |(decodedOf e).time - e.time| ≤ 25 / 12 ∧
        (e.type = .on → |(decodedOf e).velocity - e.velocity| ≤ 1 / 127) := by
  have hwf : wfEvents 0 events := by
    refine ⟨?_, htimes, hnotes, hvels⟩
    cases events with
    | nil => exact List.Chain.nil
    | cons e rest =>
        refine List.chain_cons.mpr ⟨?_, ?_⟩
        · exact (htimes e (List.mem_cons_self _ _)).1
        · exact hchain
  refine ⟨encodedBytes events, encodeMidi_chunks events hwf hcount, ?_, ?_⟩
  · unfold getRecordingEvents
    rw [decode_encoded events hwf hcount]
  · intro e he
    exact ⟨rfl, decodedOf_note e (hnotes e he).1, decodedOf_time_close e,
      fun ht => decodedOf_vel_close e ht (hvels e he ht).1 (hvels e he ht).2⟩

/-- C1 counterexample to the unamended claim: a single well-formed note-on
event at time 600000000 ms has tick delta 288000000 ≥ 2^28, whose bits
overflow `writeVarLen`'s 32-bit accumulator; the wrapped value turns
negative, the source's `while` loops never exit, and `encodeMidi` produces
no byte stream at all, so the decode of the encoding does not reproduce the
events. -/
theorem encode_divergence_counterexample :
    encodeMidi [⟨.on, 60, 1, 600000000⟩] = none := by
  unfold encodeMidi encodeTrackBody eventBytes
  dsimp only
  rw [show round ((600000000 : ℚ) * (48 / 100) - ((0 : ℤ) : ℚ)) = (288000000 : ℤ) from by
    rw [show (600000000 : ℚ) * (48 / 100) - ((0 : ℤ) : ℚ) = ((288000000 : ℤ) : ℚ) from by
      norm_num]
    exact round_intCast _]
  rw [show writeVarLen (288000000 : ℤ) = none from by decide]
  rfl

/-- Witness for C1 at a concrete one-event list. -/
theorem encode_decode_roundtrip_witness :
    ∃ bytes : List ℕ,
      encodeMidi [⟨.on, 60, 1, 0⟩] = some bytes ∧
      getRecordingEvents bytes (([⟨.on, 60, 1, 0⟩] : List RecordingEvent).length + 2) =
        some ⟨([⟨.on, 60, 1, 0⟩] : List RecordingEvent).map decodedOf, false, 1000000⟩ ∧
      ∀ e ∈ ([⟨.on, 60, 1, 0⟩] : List RecordingEvent),
        (decodedOf e).type = e.type ∧
        (decodedOf e).note = e.note ∧
        |(decodedOf e).time - e.time| ≤ 25 / 12 ∧
        (e.type = .on → |(decodedOf e).velocity - e.velocity| ≤ 1 / 127) :=
  encode_decode_roundtrip [⟨.on, 60, 1, 0⟩]
    (by simp)
    (by intro e he; rw [List.mem_singleton] at he; subst he; exact ⟨le_refl 0, by norm_num⟩)
    (by intro e he; rw [List.mem_singleton] at he; subst he; exact ⟨by norm_num, by norm_num⟩)
    (by intro e he _; rw [List.mem_singleton] at he; subst he; exact ⟨by norm_num, le_refl 1⟩)
    (by norm_num)
